import Mathlib

/-!
Verification development for the volleygo crawler repository.

The repository contains two ingestion pipelines:
* `updateTVL.py`  — "source A": scrapes per-match HTML pages (`TVLUpdater`),
* `updateTVPL.py` — "source B": scrapes paginated listing pages that embed a
  JSON payload (`TPVLLocalUpdater`).

This file shallowly embeds the extraction, normalization, deduplication and
persistence logic of both pipelines and proves properties about them.
Network I/O, BeautifulSoup DOM queries, the `__NEXT_DATA__` regex plus
`json.loads`, and the PostgreSQL engine are replaced by explicit data:
a page is represented by the fields the code reads from it, and the store by
an in-memory association list whose update semantics mirrors the SQL
statements (`INSERT ... ON CONFLICT ... DO UPDATE`) issued by the code.
-/

/-! ## Python-semantics helpers -/

/-- Value of the decimal digit string `cs` (all characters assumed `0`-`9`). -/
def digitsVal (cs : List Char) : Nat :=
  cs.foldl (fun n c => n * 10 + (c.toNat - '0'.toNat)) 0

/-- Python `int(s)` on an already-stripped string `s`: an optional sign
followed by one or more ASCII digits; `none` models a raised `ValueError`.
(Python additionally accepts Unicode digits and `_` digit grouping; the code
under verification only ever feeds scraped score texts to `int`.) -/
def pyInt (s : String) : Option Int :=
  match s.data with
  | [] => none
  | '+' :: rest =>
      if rest ≠ [] ∧ rest.all Char.isDigit then some (Int.ofNat (digitsVal rest)) else none
  | '-' :: rest =>
      if rest ≠ [] ∧ rest.all Char.isDigit then some (-(Int.ofNat (digitsVal rest))) else none
  | cs =>
      if cs.all Char.isDigit then some (Int.ofNat (digitsVal cs)) else none

/-- Python `str.isdigit` restricted to ASCII digits (the scraped set-score
cells only contain ASCII): true iff the string is non-empty and all digits. -/
def pyIsDigit (s : String) : Bool :=
  !s.data.isEmpty && s.data.all Char.isDigit

/-- `needle` occurs as a contiguous run inside `hay` (character lists). -/
def subListIn (needle hay : List Char) : Bool :=
  match hay with
  | [] => needle.isEmpty
  | _ :: t => needle.isPrefixOf hay || subListIn needle t

/-- Python `needle in hay` on strings. -/
def pyInStr (needle hay : String) : Bool := subListIn needle.data hay.data

/-- Python `str.strip()` (whitespace trim), implemented on the character
list so that it evaluates by kernel reduction. -/
def pyStrip (s : String) : String :=
  String.mk (((s.data.dropWhile Char.isWhitespace).reverse.dropWhile Char.isWhitespace).reverse)

/-- Python truthiness of an optional string (`None` and `""` are falsy). -/
def pyTruthyOptStr : Option String → Bool
  | none => false
  | some s => s ≠ ""

/-! ## Python exceptions and JSON values -/

/-- The exceptions the embedded code can raise. -/
inductive PyErr where
  | keyErr (k : String)
  | typeErr
  | attrErr
  | valueErr
  | indexErr
  deriving DecidableEq

/-- Decidable equality of `Except` results, for evaluating the model on
concrete inputs. -/
instance {E X : Type} [DecidableEq E] [DecidableEq X] : DecidableEq (Except E X) :=
  fun x y =>
    match x, y with
    | .ok a, .ok b =>
        match decEq a b with
        | isTrue h => isTrue (h ▸ rfl)
        | isFalse h => isFalse (fun he => h (Except.ok.inj he))
    | .error a, .error b =>
        match decEq a b with
        | isTrue h => isTrue (h ▸ rfl)
        | isFalse h => isFalse (fun he => h (Except.error.inj he))
    | .ok _, .error _ => isFalse (fun he => Except.noConfusion he)
    | .error _, .ok _ => isFalse (fun he => Except.noConfusion he)

/-! A parsed JSON value (result of `json.loads`). Arrays and objects carry
their elements in the mutually defined spine types `JArr`/`JObj` (so that
decidable equality — Python `==` on these values — is derivable); list
views are provided below. `json.loads` never produces duplicate object
keys, and all objects built in this file are duplicate-free. -/
mutual
inductive JVal where
  | jnull
  | jbool (b : Bool)
  | jnum (n : Int)
  | jstr (s : String)
  | jarr (xs : JArr)
  | jobj (fs : JObj)
  deriving DecidableEq
inductive JArr where
  | anil
  | acons (hd : JVal) (tl : JArr)
  deriving DecidableEq
inductive JObj where
  | onil
  | ocons (k : String) (v : JVal) (tl : JObj)
  deriving DecidableEq
end

/-- List view of a JSON array spine. -/
def JArr.toList : JArr → List JVal
  | .anil => []
  | .acons x t => x :: t.toList

/-- Build a JSON array spine from a list. -/
def JArr.ofList : List JVal → JArr
  | [] => .anil
  | x :: t => .acons x (JArr.ofList t)

/-- Association-list view of a JSON object spine. -/
def JObj.pairs : JObj → List (String × JVal)
  | .onil => []
  | .ocons k v t => (k, v) :: t.pairs

/-- Build a JSON object spine from an association list. -/
def JObj.ofList : List (String × JVal) → JObj
  | [] => .onil
  | (k, v) :: t => .ocons k v (JObj.ofList t)

/-- JSON array from a list of values. -/
def jA (xs : List JVal) : JVal := .jarr (JArr.ofList xs)

/-- JSON object from an association list. -/
def jO (fs : List (String × JVal)) : JVal := .jobj (JObj.ofList fs)

@[simp] theorem JArr.toList_ofList (xs : List JVal) : (JArr.ofList xs).toList = xs := by
  induction xs with
  | nil => rfl
  | cons x t ih => simp [JArr.ofList, JArr.toList, ih]

@[simp] theorem JObj.pairs_ofList (fs : List (String × JVal)) : (JObj.ofList fs).pairs = fs := by
  induction fs with
  | nil => rfl
  | cons p t ih => obtain ⟨k, v⟩ := p; simp [JObj.ofList, JObj.pairs, ih]

/-- Python subscription `v[k]` with a string key: `KeyError` on a dict
without the key, `TypeError` on anything that is not a dict. -/
def jGetItem (v : JVal) (k : String) : Except PyErr JVal :=
  match v with
  | .jobj fs =>
      match fs.pairs.lookup k with
      | some x => .ok x
      | none => .error (.keyErr k)
  | _ => .error .typeErr

/-- Python `v.get(k, dflt)`: `AttributeError` on anything that is not a
dict (lists, strings, `None`, numbers have no `get`). -/
def jGet (v : JVal) (k : String) (dflt : JVal) : Except PyErr JVal :=
  match v with
  | .jobj fs => .ok ((fs.pairs.lookup k).getD dflt)
  | _ => .error .attrErr

/-- Python truthiness of a JSON value. -/
def pyTruthy : JVal → Bool
  | .jnull => false
  | .jbool b => b
  | .jnum n => n != 0
  | .jstr s => s ≠ ""
  | .jarr xs => !xs.toList.isEmpty
  | .jobj fs => !fs.pairs.isEmpty

/-- Python iteration over a value: lists yield elements, strings yield
one-character strings, dicts yield their keys, everything else raises
`TypeError`. -/
def pyIter : JVal → Except PyErr (List JVal)
  | .jarr xs => .ok xs.toList
  | .jstr s => .ok (s.data.map (fun c => .jstr (String.mk [c])))
  | .jobj fs => .ok (fs.pairs.map (fun p => .jstr p.1))
  | _ => .error .typeErr

example : pyInt "21" = some 21 := by decide
example : pyInt "-3" = some (-3) := by decide
example : pyInt "2a" = none := by decide
example : pyInt "" = none := by decide
example : pyIsDigit "25" = true := by decide
example : pyIsDigit "" = false := by decide
example : pyInStr "完賽" "已完賽" = true := by decide
example : pyInStr "LIVE" "進行中" = false := by decide
example : pyStrip "  21 " = "21" := by decide

/-! ## Keyed insert-or-overwrite on association lists

Both persistence sinks issue `INSERT ... ON CONFLICT (key) DO UPDATE` whose
update clause overwrites the stored (non-audit) columns with the incoming
values, and the deduplication step builds a Python dict by repeated
assignment `d[k] = m`. Both are instances of the same association-list
operation: replace in place when the key is present, append otherwise. -/

section AssocUpsert

variable {K A : Type} [DecidableEq K]

/-- One insert-or-overwrite step: if key `k` is present in `l` the stored
value is replaced in place (position kept), otherwise `(k, a)` is appended.
This mirrors Python dict assignment (insertion order kept, value replaced)
and a single `ON CONFLICT DO UPDATE` row against a unique key. -/
def upsertA (l : List (K × A)) (k : K) (a : A) : List (K × A) :=
  if l.any (fun p => decide (p.1 = k)) then
    l.map (fun p => if p.1 = k then (k, a) else p)
  else l ++ [(k, a)]

/-- Fold a batch of keyed values into the list, in order. -/
def upsertAll (l : List (K × A)) (ps : List (K × A)) : List (K × A) :=
  ps.foldl (fun acc p => upsertA acc p.1 p.2) l

/-- The net effect of a batch on the value stored at key `k`, starting
from `v`: the last pair of `ps` with key `k` wins. -/
def chainC (ps : List (K × A)) (k : K) (v : A) : A :=
  ps.foldl (fun v p => if p.1 = k then p.2 else v) v

theorem keys_map_update {l : List (K × A)} {k : K} {a : A} :
    (l.map (fun p => if p.1 = k then (k, a) else p)).map Prod.fst = l.map Prod.fst := by
  rw [List.map_map]
  apply List.map_congr_left
  intro p _
  by_cases h : p.1 = k <;> simp [h]

theorem mem_keys_upsertA {l : List (K × A)} {k k' : K} {a : A} :
    k' ∈ (upsertA l k a).map Prod.fst ↔ k' ∈ l.map Prod.fst ∨ k' = k := by
  unfold upsertA
  by_cases h : l.any (fun p => decide (p.1 = k)) = true
  · rw [if_pos h, keys_map_update]
    rw [List.any_eq_true] at h
    obtain ⟨p, hp, hpk⟩ := h
    rw [decide_eq_true_eq] at hpk
    constructor
    · exact Or.inl
    · rintro (hm | rfl)
      · exact hm
      · exact hpk ▸ List.mem_map_of_mem Prod.fst hp
  · rw [if_neg h]
    simp

theorem mem_keys_upsertAll {l ps : List (K × A)} {k : K} :
    k ∈ (upsertAll l ps).map Prod.fst ↔ k ∈ l.map Prod.fst ∨ k ∈ ps.map Prod.fst := by
  induction ps generalizing l with
  | nil => simp [upsertAll]
  | cons p t ih =>
      show k ∈ (upsertAll (upsertA l p.1 p.2) t).map Prod.fst ↔ _
      rw [ih, mem_keys_upsertA]
      simp only [List.map_cons, List.mem_cons]
      tauto

theorem upsertA_of_mem {l : List (K × A)} {k : K} {a : A}
    (h : k ∈ l.map Prod.fst) :
    upsertA l k a = l.map (fun p => if p.1 = k then (k, a) else p) := by
  unfold upsertA
  rw [if_pos]
  rw [List.any_eq_true]
  obtain ⟨p, hp, hpk⟩ := List.mem_map.mp h
  exact ⟨p, hp, by simpa using hpk⟩

theorem chainC_nil (k : K) (v : A) : chainC [] k v = v := rfl

theorem chainC_cons (p : K × A) (ps : List (K × A)) (k : K) (v : A) :
    chainC (p :: ps) k v = chainC ps k (if p.1 = k then p.2 else v) := rfl

theorem chainC_of_no_match {ps : List (K × A)} {k : K}
    (h : ∀ p ∈ ps, p.1 ≠ k) (v : A) : chainC ps k v = v := by
  induction ps with
  | nil => rfl
  | cons p t ih =>
      rw [chainC_cons, if_neg (h p (List.mem_cons_self p t))]
      exact ih (fun q hq => h q (List.mem_cons_of_mem p hq)) 

theorem chainC_const {ps : List (K × A)} {k : K}
    (h : ∃ p ∈ ps, p.1 = k) : ∀ v w : A, chainC ps k v = chainC ps k w := by
  induction ps with
  | nil => obtain ⟨p, hp, _⟩ := h; exact absurd hp (List.not_mem_nil p)
  | cons p t ih =>
      intro v w
      rw [chainC_cons, chainC_cons]
      by_cases hm : ∃ q ∈ t, q.1 = k
      · exact ih hm _ _
      · obtain ⟨q, hq, hqk⟩ := h
        rcases List.mem_cons.mp hq with rfl | hqt
        · simp [hqk]
        · exact absurd ⟨q, hqt, hqk⟩ hm

/-- If every key of the batch is already present, the whole batch acts as a
pointwise in-place rewrite of the stored values. -/
theorem upsertAll_eq_map_of_keys_present {ps l : List (K × A)}
    (h : ∀ p ∈ ps, p.1 ∈ l.map Prod.fst) :
    upsertAll l ps = l.map (fun q => (q.1, chainC ps q.1 q.2)) := by
  induction ps generalizing l with
  | nil =>
      show l = l.map (fun q => (q.1, q.2))
      simp
  | cons p t ih =>
      show upsertAll (upsertA l p.1 p.2) t = _
      rw [upsertA_of_mem (h p (List.mem_cons_self p t)), ih, List.map_map]
      · apply List.map_congr_left
        intro q _
        by_cases hq : q.1 = p.1
        · simp [hq, chainC_cons, Function.comp]
        · have hq2 : ¬(p.1 = q.1) := fun he => hq he.symm
          simp [hq, hq2, chainC_cons, Function.comp]
      · intro q hq
        rw [keys_map_update]
        exact h q (List.mem_cons_of_mem p hq)

theorem mem_upsertA_of_ne {l : List (K × A)} {k k' : K} {a v : A}
    (h : k' ≠ k) : (k', v) ∈ upsertA l k a ↔ (k', v) ∈ l := by
  unfold upsertA
  by_cases hp : l.any (fun p => decide (p.1 = k)) = true
  · rw [if_pos hp]
    constructor
    · intro hm
      obtain ⟨q, hq, hqe⟩ := List.mem_map.mp hm
      by_cases hqk : q.1 = k
      · rw [if_pos hqk] at hqe
        exact absurd (congrArg Prod.fst hqe.symm) h
      · rw [if_neg hqk] at hqe
        exact hqe ▸ hq
    · intro hm
      refine List.mem_map.mpr ⟨(k', v), hm, ?_⟩
      rw [if_neg h]
  · rw [if_neg hp]
    simp only [List.mem_append, List.mem_singleton]
    constructor
    · rintro (hm | hm)
      · exact hm
      · exact absurd (congrArg Prod.fst hm) h
    · exact Or.inl

theorem mem_upsertAll_of_no_match {l ps : List (K × A)} {k : K} {v : A}
    (h : ∀ p ∈ ps, p.1 ≠ k) : (k, v) ∈ upsertAll l ps ↔ (k, v) ∈ l := by
  induction ps generalizing l with
  | nil => exact Iff.rfl
  | cons p t ih =>
      show (k, v) ∈ upsertAll (upsertA l p.1 p.2) t ↔ _
      rw [ih (fun q hq => h q (List.mem_cons_of_mem p hq)),
        mem_upsertA_of_ne (fun he => h p (List.mem_cons_self p t) he.symm)]

theorem mem_upsertA_self {l : List (K × A)} {k : K} {a v : A}
    (h : (k, v) ∈ upsertA l k a) : v = a := by
  unfold upsertA at h
  by_cases hp : l.any (fun p => decide (p.1 = k)) = true
  · rw [if_pos hp] at h
    obtain ⟨q, _, hqe⟩ := List.mem_map.mp h
    by_cases hqk : q.1 = k
    · rw [if_pos hqk] at hqe
      exact (congrArg Prod.snd hqe).symm
    · rw [if_neg hqk] at hqe
      exact absurd (congrArg Prod.fst hqe) hqk
  · rw [if_neg hp] at h
    rcases List.mem_append.mp h with hm | hm
    · exact absurd (List.any_eq_true.mpr ⟨(k, v), hm, by simp⟩) hp
    · cases List.mem_singleton.mp hm
      rfl

@[simp] theorem upsertAll_nil (l : List (K × A)) : upsertAll l [] = l := rfl

@[simp] theorem upsertAll_cons (l : List (K × A)) (p : K × A) (ps : List (K × A)) :
    upsertAll l (p :: ps) = upsertAll (upsertA l p.1 p.2) ps := rfl

/-- The value stored at a key occurring in the batch is the batch's net
effect at that key. -/
theorem val_eq_chain_of_mem {l ps : List (K × A)} {k : K} {v : A}
    (hmem : (k, v) ∈ upsertAll l ps) (hmatch : ∃ p ∈ ps, p.1 = k) :
    v = chainC ps k v := by
  induction ps generalizing l with
  | nil => obtain ⟨p, hp, _⟩ := hmatch; exact absurd hp (List.not_mem_nil p)
  | cons p t ih =>
      rw [upsertAll_cons] at hmem
      rw [chainC_cons]
      by_cases hm : ∃ q ∈ t, q.1 = k
      · calc v = chainC t k v := ih hmem hm
          _ = chainC t k (if p.1 = k then p.2 else v) := chainC_const hm _ _
      · obtain ⟨q, hq, hqk⟩ := hmatch
        rcases List.mem_cons.mp hq with rfl | hqt
        · have hmem2 : (k, v) ∈ upsertA l q.1 q.2 :=
            (mem_upsertAll_of_no_match (fun r hr he => hm ⟨r, hr, he⟩)).mp hmem
          rw [if_pos hqk, chainC_of_no_match (fun r hr he => hm ⟨r, hr, he⟩)]
          exact mem_upsertA_self (hqk ▸ hmem2)
        · exact absurd ⟨q, hqt, hqk⟩ hm

/-- Idempotence of a batch of keyed overwrites: replaying the same batch on
the already-updated store changes nothing. -/
theorem upsertAll_idem (l ps : List (K × A)) :
    upsertAll (upsertAll l ps) ps = upsertAll l ps := by
  have hkeys : ∀ p ∈ ps, p.1 ∈ (upsertAll l ps).map Prod.fst := fun p hp =>
    mem_keys_upsertAll.mpr (Or.inr (List.mem_map_of_mem Prod.fst hp))
  rw [upsertAll_eq_map_of_keys_present hkeys]
  have hcongr : ∀ q ∈ upsertAll l ps, (q.1, chainC ps q.1 q.2) = id q := by
    rintro ⟨k, v⟩ hq
    by_cases hmatch : ∃ p ∈ ps, p.1 = k
    · have h1 := val_eq_chain_of_mem hq hmatch
      simp [← h1]
    · rw [chainC_of_no_match (fun p hp he => hmatch ⟨p, hp, he⟩)]
      rfl
  rw [List.map_congr_left hcongr, List.map_id]

theorem keys_nodup_upsertA {l : List (K × A)} {k : K} {a : A}
    (h : (l.map Prod.fst).Nodup) : ((upsertA l k a).map Prod.fst).Nodup := by
  unfold upsertA
  by_cases hp : l.any (fun p => decide (p.1 = k)) = true
  · rw [if_pos hp, keys_map_update]; exact h
  · rw [if_neg hp, List.map_append]
    simp only [List.map_cons, List.map_nil]
    rw [List.nodup_append]
    refine ⟨h, List.nodup_singleton k, ?_⟩
    intro x hx hxk
    rw [List.mem_singleton] at hxk
    subst hxk
    obtain ⟨q, hq, hqk⟩ := List.mem_map.mp hx
    exact hp (List.any_eq_true.mpr ⟨q, hq, by simpa using hqk⟩)

theorem keys_nodup_upsertAll {l : List (K × A)} (ps : List (K × A))
    (h : (l.map Prod.fst).Nodup) : ((upsertAll l ps).map Prod.fst).Nodup := by
  induction ps generalizing l with
  | nil => exact h
  | cons p t ih => exact ih (keys_nodup_upsertA h)

theorem chainC_append (ps qs : List (K × A)) (k : K) (v : A) :
    chainC (ps ++ qs) k v = chainC qs k (chainC ps k v) := by
  unfold chainC
  rw [List.foldl_append]

/-- The net effect of a batch at key `k` is the value of the last pair of
the batch carrying key `k` (starting value `v` if none does). -/
theorem chainC_eq_last (ps : List (K × A)) (k : K) (v : A) :
    chainC ps k v =
      ((ps.reverse.find? (fun p => decide (p.1 = k))).map Prod.snd).getD v := by
  induction ps using List.reverseRecOn with
  | nil => rfl
  | append_singleton t p ih =>
      rw [chainC_append, List.reverse_append]
      simp only [List.reverse_cons, List.reverse_nil, List.nil_append, List.singleton_append]
      by_cases hk : p.1 = k
      · rw [List.find?_cons_of_pos _ (by simpa using hk)]
        simp [chainC_cons, chainC_nil, hk]
      · rw [List.find?_cons_of_neg _ (by simpa using hk)]
        rw [chainC_cons, if_neg hk, chainC_nil]
        exact ih

end AssocUpsert

/-! ## Source A (`updateTVL.py`, class `TVLUpdater`)

A fetched page is represented by exactly the DOM data the code selects:
the `.match_table` (its `tbody` rows, each row's first `td` text and its
indexed `#q{i}_home` / `#q{i}_away` cell texts), the `.game_header` text,
the two big-score cell texts and the `.badge` text. A selector that finds
nothing is `none`. -/

/-- The two-valued category of source-A matches. -/
inductive Gender where
  | male
  | female
  deriving DecidableEq

/-- One `tr` of the results table body. `firstTd` is the text of the row's
first `td` (`none` when `find("td")` returns `None`); `cell i` is the text
of the set cell with id `q{i}_home` (home row) resp. `q{i}_away` (away
row) under this row, `none` when the selector finds nothing. -/
structure RowA where
  firstTd : Option String
  cell : Nat → Option String

/-- The `.match_table` element: its `tbody` rows (`none` when the table has
no `tbody`). -/
structure TableA where
  tbody : Option (List RowA)

/-- A fetched, parsed source-A page. -/
structure PageA where
  match_table : Option TableA
  game_header : Option String
  homeBig : Option String
  awayBig : Option String
  badge : Option String

/-- `TVLUpdater.get_team_names`: first `td` text of the first two body rows,
stripped. Missing table / missing `tbody` / fewer than two rows give
`(None, None)`; a missing first `td` raises `AttributeError` on `.text`,
which the surrounding `except` turns into `(None, None)` as well. -/
def get_team_names (soup : PageA) : Option String × Option String :=
  match soup.match_table with
  | none => (none, none)
  | some t =>
      match t.tbody with
      | none => (none, none)
      | some rows =>
          match rows with
          | r0 :: r1 :: _ =>
              match r0.firstTd, r1.firstTd with
              | some h, some a => (some (pyStrip h), some (pyStrip a))
              | _, _ => (none, none)
          | _ => (none, none)

/-! Character-level model of the regex used by `TVLUpdater.parse_datetime`:
four digits, a separator (dash or slash), two digits, a separator, two
digits, one or more whitespace characters, then `HH:MM` (two digits, a
colon, two digits); group 1 is the date part, group 2 the time part, with
`re.search` leftmost semantics. Since whitespace and digits are disjoint,
the greedy whitespace run never needs backtracking, so a fixed
left-to-right matcher is exact. -/

/-- A date separator: dash or slash, the regex's separator class. -/
def isDateSep (c : Char) : Bool := c = '-' || c = '/'

/-- Consume exactly `n` characters satisfying `f`. -/
def takeN (f : Char → Bool) : Nat → List Char → Option (List Char × List Char)
  | 0, cs => some ([], cs)
  | _ + 1, [] => none
  | n + 1, c :: cs =>
      if f c then (takeN f n cs).map (fun p => (c :: p.1, p.2)) else none

/-- Consume one character satisfying `f`. -/
def takeOne (f : Char → Bool) : List Char → Option (Char × List Char)
  | c :: cs => if f c then some (c, cs) else none
  | [] => none

/-- Consume one or more whitespace characters, greedily. -/
def takeWs1 : List Char → Option (List Char)
  | c :: cs => if c.isWhitespace then some (cs.dropWhile Char.isWhitespace) else none
  | [] => none

/-- Try the date-time pattern anchored at the head of `cs`; on success
return the two capture groups (date part, `HH:MM` part). -/
def matchDTAt (cs : List Char) : Option (String × String) := do
  let (y, cs) ← takeN Char.isDigit 4 cs
  let (s1, cs) ← takeOne isDateSep cs
  let (mo, cs) ← takeN Char.isDigit 2 cs
  let (s2, cs) ← takeOne isDateSep cs
  let (d, cs) ← takeN Char.isDigit 2 cs
  let cs ← takeWs1 cs
  let (hh, cs) ← takeN Char.isDigit 2 cs
  let (_, cs) ← takeOne (fun c => c = ':') cs
  let (mi, _) ← takeN Char.isDigit 2 cs
  some (String.mk (y ++ s1 :: mo ++ s2 :: d), String.mk (hh ++ ':' :: mi))

/-- `re.search`: try the pattern at each start position, leftmost first. -/
def searchDT : List Char → Option (String × String)
  | [] => none
  | c :: cs =>
      match matchDTAt (c :: cs) with
      | some r => some r
      | none => searchDT cs

/-- Python `s.replace('/', '-')`. -/
def slashToDash (s : String) : String :=
  String.mk (s.data.map (fun c => if c = '/' then '-' else c))

/-- `TVLUpdater.parse_datetime`: regex-search the `.game_header` text; on a
match, the date group with `/` normalized to `-` and the time group. -/
def parse_datetime (soup : PageA) : Option String × Option String :=
  match soup.game_header with
  | none => (none, none)
  | some text =>
      match searchDT text.data with
      | some (dstr, tstr) => (some (slashToDash dstr), some tstr)
      | none => (none, none)

/-- One iteration of the `for i in range(1, 6)` set-score loop body in
`TVLUpdater.parse_score_and_status`: the entry `"{home}-{away}"` appended
for index `i`, or `none` when a cell is missing or a stripped text is
empty or not all-digit. -/
def setPairEntry (hr ar : RowA) (i : Nat) : Option String :=
  match hr.cell i, ar.cell i with
  | some hc, some ac =>
      let hs := pyStrip hc
      let as2 := pyStrip ac
      if hs ≠ "" && as2 ≠ "" && pyIsDigit hs && pyIsDigit as2 then
        some (hs ++ "-" ++ as2)
      else none
  | _, _ => none

/-- One `set_scores.append(...)` step of the loop: append the qualifying
entry for index `i`, if any. -/
def collectStep (hr ar : RowA) (acc : List String) (i : Nat) : List String :=
  match setPairEntry hr ar i with
  | some e => acc ++ [e]
  | none => acc

/-- The set-score loop: fold indices 1..5 in order, appending qualifying
entries. -/
def collectSets (hr ar : RowA) : List String :=
  (List.range' 1 5).foldl (collectStep hr ar) []

/-- `TVLUpdater.parse_score_and_status`, returning
`(status, home_score, away_score, set_scores)`. The two big scores are
parsed inside one `try: home_score = int(...); away_score = int(...)
except: pass`, so a failure on the away text leaves an already-assigned
home score in place. -/
def parse_score_and_status (soup : PageA) :
    String × Option Int × Option Int × Option String :=
  let status :=
    match soup.badge with
    | none => "scheduled"
    | some btext =>
        let st := pyStrip btext
        if pyInStr "已完賽" st || pyInStr "完賽" st then "finished"
        else if pyInStr "進行中" st || pyInStr "LIVE" st then "live"
        else "scheduled"
  let scores : Option Int × Option Int :=
    match soup.homeBig, soup.awayBig with
    | some ht, some at2 =>
        (match pyInt (pyStrip ht) with
         | none => (none, none)
         | some h =>
             match pyInt (pyStrip at2) with
             | none => (some h, none)
             | some a => (some h, some a))
    | _, _ => (none, none)
  let set_scores :=
    match soup.match_table with
    | none => []
    | some t =>
        match t.tbody.getD [] with
        | hr :: ar :: _ => collectSets hr ar
        | _ => []
  let set_scores_str :=
    if set_scores.isEmpty then none else some (String.intercalate ", " set_scores)
  (status, scores.1, scores.2, set_scores_str)

/-- The canonical record built by `TVLUpdater.parse_match` (the dict the
code passes to `insert_match`). -/
structure RecordA where
  match_id : Nat
  gender : Gender
  match_date : Option String
  match_time : Option String
  home_name : String
  away_name : String
  status : String
  home_score : Option Int
  away_score : Option Int
  set_scores : Option String
  url : String
  deriving DecidableEq

/-- `self.base_url` of `TVLUpdater`. -/
def tvlBase : String := "https://tvl.ctvba.org.tw"

/-- The path segment chosen by gender (`game` for male, `wgame` for
female). -/
def gamePath : Gender → String
  | .male => "game"
  | .female => "wgame"

/-- `TVLUpdater.parse_match`: team names are required (Python falsiness:
`None` or empty string aborts with "no record"); date/time, status, scores
and set scores are best-effort. -/
def parse_matchA (match_id : Nat) (g : Gender) (soup : PageA) : Option RecordA :=
  match get_team_names soup with
  | (some hn, some an) =>
      if hn = "" || an = "" then none
      else
        let dt := parse_datetime soup
        let s4 := parse_score_and_status soup
        some {
          match_id := match_id, gender := g,
          match_date := dt.1, match_time := dt.2,
          home_name := hn, away_name := an,
          status := s4.1, home_score := s4.2.1, away_score := s4.2.2.1,
          set_scores := s4.2.2.2,
          url := tvlBase ++ "/" ++ gamePath g ++ "/" ++ toString match_id }
  | _ => none

/-- A stored row of `tvl_matches`. `rowid` is the surrogate
`id SERIAL PRIMARY KEY`; `scraped_at` is the audit timestamp
(`TIMESTAMPTZ DEFAULT NOW()`, refreshed by the update clause). The natural
key `(match_id, gender)` is kept alongside the row in `TvlDB.rows`. -/
structure TvlRow where
  rowid : Nat
  match_date : Option String
  match_time : Option String
  home_name : String
  away_name : String
  status : String
  home_score : Option Int
  away_score : Option Int
  set_scores : Option String
  url : String
  scraped_at : Nat
  deriving DecidableEq

/-- The `tvl_matches` table: rows keyed by the unique `(match_id, gender)`
pair, plus the serial counter for fresh surrogate ids. -/
structure TvlDB where
  nextId : Nat
  rows : List ((Nat × Gender) × TvlRow)
  deriving DecidableEq

/-- The natural key `(match_id, gender)` of a record, the
`UNIQUE(match_id, gender)` constraint's column pair. -/
def tvlKey (d : RecordA) : Nat × Gender := (d.match_id, d.gender)

/-- `TVLUpdater.insert_match`: `INSERT INTO tvl_matches ... ON CONFLICT
(match_id, gender) DO UPDATE SET ...; commit`. The update clause
overwrites date, time, team names, status, scores, set scores and
refreshes `scraped_at = NOW()`; it does not list `url`, so a conflicting
row keeps its stored url. The surrogate id of an updated row is untouched;
a fresh row draws the next serial value. `now` stands for the server clock
`NOW()`. -/
def insert_match (db : TvlDB) (d : RecordA) (now : Nat) : TvlDB :=
  if db.rows.any (fun p => decide (p.1 = tvlKey d)) then
    { db with rows := db.rows.map (fun p =>
        if p.1 = tvlKey d then
          (p.1, { rowid := p.2.rowid,
                  match_date := d.match_date, match_time := d.match_time,
                  home_name := d.home_name, away_name := d.away_name,
                  status := d.status, home_score := d.home_score,
                  away_score := d.away_score, set_scores := d.set_scores,
                  url := p.2.url, scraped_at := now })
        else p) }
  else
    { nextId := db.nextId + 1,
      rows := db.rows ++ [(tvlKey d,
        { rowid := db.nextId,
          match_date := d.match_date, match_time := d.match_time,
          home_name := d.home_name, away_name := d.away_name,
          status := d.status, home_score := d.home_score,
          away_score := d.away_score, set_scores := d.set_scores,
          url := d.url, scraped_at := now })] }

/-- A `tvl_matches` row with the audit timestamp erased (all other
columns, surrogate id included). -/
structure TvlRowCore where
  rowid : Nat
  match_date : Option String
  match_time : Option String
  home_name : String
  away_name : String
  status : String
  home_score : Option Int
  away_score : Option Int
  set_scores : Option String
  url : String
  deriving DecidableEq

/-- Erase the audit timestamp of a stored row. -/
def TvlRow.core (r : TvlRow) : TvlRowCore :=
  { rowid := r.rowid,
    match_date := r.match_date, match_time := r.match_time,
    home_name := r.home_name, away_name := r.away_name,
    status := r.status, home_score := r.home_score,
    away_score := r.away_score, set_scores := r.set_scores,
    url := r.url }

/-- The stored rows with audit timestamps erased. -/
def TvlDB.coreRows (db : TvlDB) : List ((Nat × Gender) × TvlRowCore) :=
  db.rows.map (fun p => (p.1, p.2.core))

/-- `self.male_range = (264, 326)`. -/
def male_range : Nat × Nat := (264, 326)

/-- `self.female_range = (228, 278)`. -/
def female_range : Nat × Nat := (228, 278)

/-- Python `range(a, b + 1)` as a list. -/
def pyRangeIncl (a b : Nat) : List Nat := List.range' a (b + 1 - a)

/-- The (category, id) pairs a full `TVLUpdater.run` iterates, in order:
the female loop over `female_range`, then the male loop over
`male_range`. -/
def runFetchPairs : List (Gender × Nat) :=
  (pyRangeIncl female_range.1 female_range.2).map (fun i => (Gender.female, i)) ++
    (pyRangeIncl male_range.1 male_range.2).map (fun i => (Gender.male, i))

/-- Observable events of the source-A run loop. -/
inductive EvA where
  | fetch (g : Gender) (id : Nat)
  | insertRec (d : RecordA)
  | sleepMs (ms : Nat)
  deriving DecidableEq

/-- Whether an event is a database insert. -/
def EvA.isInsertRec : EvA → Bool
  | .insertRec _ => true
  | _ => false

/-- One iteration of the per-id loop in `TVLUpdater.run`: one
`fetch_page`, then on a fetched page a `parse_match`, then on a parsed
record an `insert_match`, then unconditionally `time.sleep(0.5)`.
`oracle` abstracts the network: the parsed DOM for each (gender, id), or
`none` for a failed, non-200 or undersized fetch. -/
def runBodyA (oracle : Gender → Nat → Option PageA) (g : Gender) (id : Nat) : List EvA :=
  .fetch g id ::
    ((match oracle g id with
      | none => []
      | some soup =>
          match parse_matchA id g soup with
          | none => []
          | some d => [.insertRec d]) ++ [.sleepMs 500])

/-- The full event trace of `TVLUpdater.run`'s two enumeration loops. -/
def runTraceA (oracle : Gender → Nat → Option PageA) : List EvA :=
  runFetchPairs.flatMap (fun p => runBodyA oracle p.1 p.2)

def pageEx : PageA :=
  { match_table := some { tbody := some [
      { firstTd := some "Team X",
        cell := fun i => if i = 1 then some "25" else if i = 2 then some "25"
          else if i = 3 then some "21" else if i = 4 then some "25" else none },
      { firstTd := some "Team Y",
        cell := fun i => if i = 1 then some "23" else if i = 2 then some "20"
          else if i = 3 then some "25" else if i = 4 then some "18" else none }] },
    game_header := some "2024/11/03 14:00 場地一",
    homeBig := some "21",
    awayBig := some "18",
    badge := some "已完賽" }

example : parse_score_and_status pageEx =
    ("finished", some 21, some 18, some "25-23, 25-20, 21-25, 25-18") := by decide
example : parse_datetime pageEx = (some "2024-11-03", some "14:00") := by decide
example : get_team_names pageEx = (some "Team X", some "Team Y") := by decide
example : (parse_matchA 300 Gender.male pageEx).isSome = true := by decide
example : (parse_matchA 300 Gender.male pageEx).map (fun r => r.url) =
    some "https://tvl.ctvba.org.tw/game/300" := by decide

/-! ## Source B (`updateTVPL.py`, class `TPVLLocalUpdater`) -/

/-! ### Calendar arithmetic (model of Python `datetime`) -/

/-- A naive wall-clock date-time, the model of a Python `datetime` value
(the timezone info attached by `fromisoformat` is irrelevant: the code
adds a flat `timedelta` and reads the wall-clock fields). -/
structure PyDateTime where
  year : Nat
  month : Nat
  day : Nat
  hour : Nat
  minute : Nat
  second : Nat
  deriving DecidableEq

/-- Gregorian leap year. -/
def isLeap (y : Nat) : Bool := (y % 4 = 0 && y % 100 ≠ 0) || y % 400 = 0

/-- Days in a month of the proleptic Gregorian calendar. -/
def daysInMonth (y m : Nat) : Nat :=
  if m = 2 then (if isLeap y then 29 else 28)
  else if m = 4 || m = 6 || m = 9 || m = 11 then 30
  else 31

/-- Days in the months of year `y` strictly before month `m`. -/
def daysBeforeMonth (y m : Nat) : Nat :=
  (List.range' 1 (m - 1)).foldl (fun acc mm => acc + daysInMonth y mm) 0

/-- `date.toordinal()`: day number with 0001-01-01 ↦ 1. -/
def dateOrdinal (y m d : Nat) : Nat :=
  365 * (y - 1) + (y - 1) / 4 + (y - 1) / 400 - (y - 1) / 100 + daysBeforeMonth y m + d

/-- `date.weekday()`: Monday = 0 … Sunday = 6 (0001-01-01 was a Monday). -/
def pyWeekday (y m d : Nat) : Nat := (dateOrdinal y m d + 6) % 7

/-- The calendar day after `(y, m, d)`. -/
def nextDate (y m d : Nat) : Nat × Nat × Nat :=
  if d < daysInMonth y m then (y, m, d + 1)
  else if m < 12 then (y, m + 1, 1)
  else (y + 1, 1, 1)

/-- `dt + timedelta(hours=8)` on a valid date-time (hour < 24, so at most
one day of rollover). -/
def addHours8 (dt : PyDateTime) : PyDateTime :=
  if dt.hour + 8 < 24 then
    { dt with hour := dt.hour + 8 }
  else
    let nd := nextDate dt.year dt.month dt.day
    { year := nd.1, month := nd.2.1, day := nd.2.2,
      hour := dt.hour + 8 - 24, minute := dt.minute, second := dt.second }

/-- The field validation `fromisoformat` performs (`datetime.MINYEAR = 1`;
four parsed digits bound the year by 9999). -/
def validDT (dt : PyDateTime) : Bool :=
  1 ≤ dt.year && 1 ≤ dt.month && dt.month ≤ 12 &&
    1 ≤ dt.day && dt.day ≤ daysInMonth dt.year dt.month &&
    dt.hour < 24 && dt.minute < 60 && dt.second < 60

/-- Skip an optional fractional-seconds part `.d{1..6}` (value ignored:
microseconds play no role downstream). -/
def skipFrac : List Char → Option (List Char)
  | '.' :: cs =>
      let ds := cs.takeWhile Char.isDigit
      if ds.length = 0 || ds.length > 6 then none else some (cs.dropWhile Char.isDigit)
  | cs => some cs

/-- Skip an optional `±HH:MM` UTC-offset suffix. The offset's value is
irrelevant downstream (the code adds its flat +8 h to the wall clock), so
only its shape is checked. -/
def skipOffset : List Char → Option (List Char)
  | [] => some []
  | c :: cs =>
      if c = '+' || c = '-' then
        match takeN Char.isDigit 2 cs with
        | some (_, rest) =>
            match rest with
            | ':' :: rest2 =>
                match takeN Char.isDigit 2 rest2 with
                | some (_, rest3) => some rest3
                | none => none
            | _ => none
        | none => none
      else none

/-- `datetime.fromisoformat` on the ISO-8601 shapes the source emits:
`YYYY-MM-DD` then `T` (or a space) then `HH:MM:SS`, an optional fraction,
an optional `±HH:MM` offset; `none` models the raised `ValueError`. -/
def pyFromIso (s : String) : Option PyDateTime := do
  let cs := s.data
  let (yd, cs) ← takeN Char.isDigit 4 cs
  let (_, cs) ← takeOne (fun c => c = '-') cs
  let (mo, cs) ← takeN Char.isDigit 2 cs
  let (_, cs) ← takeOne (fun c => c = '-') cs
  let (dd, cs) ← takeN Char.isDigit 2 cs
  let (_, cs) ← takeOne (fun c => c = 'T' || c = ' ') cs
  let (hh, cs) ← takeN Char.isDigit 2 cs
  let (_, cs) ← takeOne (fun c => c = ':') cs
  let (mi, cs) ← takeN Char.isDigit 2 cs
  let (_, cs) ← takeOne (fun c => c = ':') cs
  let (ss, cs) ← takeN Char.isDigit 2 cs
  let cs ← skipFrac cs
  let cs ← skipOffset cs
  match cs with
  | [] =>
      let dt : PyDateTime :=
        { year := digitsVal yd, month := digitsVal mo, day := digitsVal dd,
          hour := digitsVal hh, minute := digitsVal mi, second := digitsVal ss }
      if validDT dt then some dt else none
  | _ => none

/-- Python `s.replace('Z', '+00:00')`. -/
def zToUtcOffset (s : String) : String :=
  String.mk (List.flatten (s.data.map (fun c => if c = 'Z' then "+00:00".data else [c])))

/-- The fixed localized weekday-name table
`['一', '二', '三', '四', '五', '六', '日']`. -/
def weekdayTable : List String := ["一", "二", "三", "四", "五", "六", "日"]

/-- Python list indexing `xs[i]` (non-negative index): `IndexError` when
out of range. -/
def pyIndexList {α : Type} (xs : List α) (i : Nat) : Except PyErr α :=
  match xs.get? i with
  | some x => .ok x
  | none => .error .indexErr

example : pyFromIso "2024-01-01T10:00:00+00:00" =
    some { year := 2024, month := 1, day := 1, hour := 10, minute := 0, second := 0 } := by
  decide
example : zToUtcOffset "2024-01-01T10:00:00Z" = "2024-01-01T10:00:00+00:00" := by decide
example : pyFromIso "banana" = none := by decide
example : pyWeekday 2024 1 1 = 0 := by decide
example : pyWeekday 2026 10 12 = 0 := by decide
example : addHours8 ⟨2024, 12, 31, 20, 5, 0⟩ = ⟨2025, 1, 1, 4, 5, 0⟩ := by decide

/-! ### Normalizer and persistence of source B -/

/-- The 12-tuple `TPVLLocalUpdater.parse_match` returns, field-named in
the column order of the `upsert_matches` INSERT (the sink binds by
position). Values read straight from the JSON stay `JVal`. -/
structure MatchVals where
  id : JVal
  code : JVal
  match_date : Nat × Nat × Nat
  match_time : Nat × Nat × Nat
  weekday : String
  home_team_id : JVal
  away_team_id : JVal
  venue : JVal
  status : String
  home_score : Option JVal
  away_score : Option JVal
  updated_at : Nat
  deriving DecidableEq

/-- One iteration of the `for result in match_data['squadMatchResults']`
loop: compare `result['squadId']` with the home then the away squad id and
record `result['wonRounds']` on a match (later iterations overwrite). -/
def scoreStep (m : JVal) (acc : Option JVal × Option JVal) (result : JVal) :
    Except PyErr (Option JVal × Option JVal) := do
  let sid ← jGetItem result "squadId"
  let hid ← jGetItem m "homeSquadId"
  if sid = hid then
    let wr ← jGetItem result "wonRounds"
    pure (some wr, acc.2)
  else
    let aid ← jGetItem m "awaySquadId"
    if sid = aid then
      let wr ← jGetItem result "wonRounds"
      pure (acc.1, some wr)
    else
      pure acc

/-- `TPVLLocalUpdater.parse_match` over one raw JSON match object. Raises
(`Except.error`) exactly where the Python raises: `KeyError` for a missing
required key, `AttributeError` when `matchedAt` is not a string (no
`.replace`), `ValueError` when `fromisoformat` rejects the timestamp,
`TypeError` when `squadMatchResults` is truthy but not iterable. `now`
models `datetime.now()`. -/
def parse_matchB (m : JVal) (now : Nat) : Except PyErr MatchVals := do
  let matchedAt ← jGetItem m "matchedAt"
  let ts ← (match matchedAt with
    | .jstr s => Except.ok s
    | _ => Except.error PyErr.attrErr)
  let dt ← (match pyFromIso (zToUtcOffset ts) with
    | some dt => Except.ok dt
    | none => Except.error PyErr.valueErr)
  let taipei := addHours8 dt
  let smr ← jGet m "squadMatchResults" .jnull
  let st ←
    if pyTruthy smr then do
      let rs ← jGetItem m "squadMatchResults"
      let results ← pyIter rs
      let scores ← results.foldlM (scoreStep m) (none, none)
      pure ("completed", scores)
    else
      pure ("upcoming", ((none : Option JVal), (none : Option JVal)))
  let idv ← jGetItem m "id"
  let codev ← jGetItem m "code"
  let wk ← pyIndexList weekdayTable (pyWeekday taipei.year taipei.month taipei.day)
  let hidv ← jGetItem m "homeSquadId"
  let aidv ← jGetItem m "awaySquadId"
  let venuev ← jGetItem m "venue"
  pure { id := idv, code := codev,
         match_date := (taipei.year, taipei.month, taipei.day),
         match_time := (taipei.hour, taipei.minute, taipei.second),
         weekday := wk, home_team_id := hidv, away_team_id := aidv,
         venue := venuev, status := st.1, home_score := st.2.1,
         away_score := st.2.2, updated_at := now }

/-- The 5-tuple built per team in `upsert_teams`' comprehension
(`team['id'], team['name'], team['altName'], team['logoUrl'],
datetime.now()`); a missing key raises `KeyError` outside the `try`. -/
structure TeamVals where
  id : JVal
  name : JVal
  name_en : JVal
  logo_url : JVal
  deriving DecidableEq

/-- One iteration of the `upsert_teams` comprehension. -/
def parse_teamB (t : JVal) : Except PyErr TeamVals := do
  let idv ← jGetItem t "id"
  let namev ← jGetItem t "name"
  let altv ← jGetItem t "altName"
  let logov ← jGetItem t "logoUrl"
  pure { id := idv, name := namev, name_en := altv, logo_url := logov }

/-- A stored `tpvl_teams` row (natural key `id BIGINT PRIMARY KEY` kept
alongside in the table list). -/
structure TeamRow where
  name : JVal
  name_en : JVal
  logo_url : JVal
  created_at : Nat
  updated_at : Nat
  deriving DecidableEq

/-- A stored `tpvl_matches` row (natural key `id BIGINT PRIMARY KEY` kept
alongside in the table list). -/
structure MatchRow where
  code : JVal
  match_date : Nat × Nat × Nat
  match_time : Nat × Nat × Nat
  weekday : String
  home_team_id : JVal
  away_team_id : JVal
  venue : JVal
  status : String
  home_score : Option JVal
  away_score : Option JVal
  created_at : Nat
  updated_at : Nat
  deriving DecidableEq

/-- The source-B store: the `tpvl_teams` and `tpvl_matches` tables. -/
structure TpvlDB where
  teams : List (Int × TeamRow)
  matchesTbl : List (Int × MatchRow)
  deriving DecidableEq

/-- A team-reference column value violates its constraints unless it is
NULL or an integer id present in `tpvl_teams` (the `REFERENCES
tpvl_teams(id)` foreign key; a non-integer fails type adaptation). -/
def fkViolation (teams : List (Int × TeamRow)) : JVal → Bool
  | .jnull => false
  | .jnum n => !(teams.any (fun p => decide (p.1 = n)))
  | _ => true

/-- An INTEGER score column accepts NULL (absent or JSON null) or an
integer. -/
def scoreViolation : Option JVal → Bool
  | none => false
  | some (.jnull) => false
  | some (.jnum _) => false
  | some _ => true

/-- Whether the parsed row `v` makes the `tpvl_matches` INSERT fail:
`id BIGINT PRIMARY KEY` needs an integer, `code TEXT NOT NULL` and
`venue TEXT NOT NULL` need strings, the team references must satisfy the
foreign key, the score columns must be NULL or integers. Dates, times,
weekday and status are well-typed by construction. -/
def matchRowViolation (teams : List (Int × TeamRow)) (v : MatchVals) : Bool :=
  (match v.id with | .jnum _ => false | _ => true) ||
  (match v.code with | .jstr _ => false | _ => true) ||
  (match v.venue with | .jstr _ => false | _ => true) ||
  fkViolation teams v.home_team_id || fkViolation teams v.away_team_id ||
  scoreViolation v.home_score || scoreViolation v.away_score

/-- Whether the parsed team row makes the `tpvl_teams` INSERT fail:
`id BIGINT PRIMARY KEY` needs an integer, `name TEXT NOT NULL` a string,
`name_en` and `logo_url` NULL or strings. -/
def teamRowViolation (v : TeamVals) : Bool :=
  (match v.id with | .jnum _ => false | _ => true) ||
  (match v.name with | .jstr _ => false | _ => true) ||
  (match v.name_en with | .jnull => false | .jstr _ => false | _ => true) ||
  (match v.logo_url with | .jnull => false | .jstr _ => false | _ => true)

/-- The natural key of a non-violating parsed match row. -/
def MatchVals.key (v : MatchVals) : Int :=
  match v.id with
  | .jnum n => n
  | _ => 0

/-- The natural key of a non-violating parsed team row. -/
def TeamVals.key (v : TeamVals) : Int :=
  match v.id with
  | .jnum n => n
  | _ => 0

/-- One row of the `tpvl_matches` `INSERT ... ON CONFLICT (id) DO UPDATE`:
a conflicting row has every data column overwritten by the EXCLUDED value
and `updated_at = NOW()` while `created_at` is kept; a fresh row gets both
audit columns from the server clock. -/
def applyMatchVals (rows : List (Int × MatchRow)) (v : MatchVals) (now : Nat) :
    List (Int × MatchRow) :=
  let upd : MatchRow → MatchRow := fun old =>
    { code := v.code, match_date := v.match_date, match_time := v.match_time,
      weekday := v.weekday, home_team_id := v.home_team_id,
      away_team_id := v.away_team_id, venue := v.venue, status := v.status,
      home_score := v.home_score, away_score := v.away_score,
      created_at := old.created_at, updated_at := now }
  if rows.any (fun p => decide (p.1 = v.key)) then
    rows.map (fun p => if p.1 = v.key then (p.1, upd p.2) else p)
  else
    rows ++ [(v.key,
      { code := v.code, match_date := v.match_date, match_time := v.match_time,
        weekday := v.weekday, home_team_id := v.home_team_id,
        away_team_id := v.away_team_id, venue := v.venue, status := v.status,
        home_score := v.home_score, away_score := v.away_score,
        created_at := now, updated_at := now })]

/-- One row of the `tpvl_teams` `INSERT ... ON CONFLICT (id) DO UPDATE`. -/
def applyTeamVals (rows : List (Int × TeamRow)) (v : TeamVals) (now : Nat) :
    List (Int × TeamRow) :=
  let upd : TeamRow → TeamRow := fun old =>
    { name := v.name, name_en := v.name_en, logo_url := v.logo_url,
      created_at := old.created_at, updated_at := now }
  if rows.any (fun p => decide (p.1 = v.key)) then
    rows.map (fun p => if p.1 = v.key then (p.1, upd p.2) else p)
  else
    rows ++ [(v.key,
      { name := v.name, name_en := v.name_en, logo_url := v.logo_url,
        created_at := now, updated_at := now })]

/-- How a sink call ends: a normal return (`errLogged` records whether the
`except` branch ran, i.e. the batch was rolled back and the error printed),
or an exception propagating to the caller. -/
inductive DbOutcome where
  | ret (errLogged : Bool)
  | raised (e : PyErr)
  deriving DecidableEq

/-- `TPVLLocalUpdater.upsert_matches`. The comprehension
`values = [self.parse_match(m) for m in matches_data]` runs before the
`try`, so a parse exception propagates to the caller (`raised`) with the
store untouched. Inside the `try`, `execute_values` runs one multi-row
INSERT: if any row violates a constraint the statement fails as a whole
and the `except` logs and rolls back (`ret true`, store unchanged);
otherwise the rows apply in order and `commit` runs (`ret false`). Row
validity depends only on the row itself and on `tpvl_teams`, which this
statement never modifies, so checking every row up front coincides with
the engine's abort at the first failing row. -/
def upsert_matches (db : TpvlDB) (matches_data : List JVal) (now : Nat) :
    TpvlDB × DbOutcome :=
  match matches_data.mapM (fun m => parse_matchB m now) with
  | .error e => (db, .raised e)
  | .ok values =>
      if values.any (matchRowViolation db.teams) then
        (db, .ret true)
      else
        ({ db with
            matchesTbl :=
              values.foldl (fun rows v => applyMatchVals rows v now) db.matchesTbl },
          .ret false)

/-- `TPVLLocalUpdater.upsert_teams`. The `values` comprehension iterates
`teams_data` (a `TypeError` on a non-iterable and any `KeyError` propagate:
it runs before the `try`); the INSERT then commits or is rolled back and
logged exactly as in `upsert_matches`. -/
def upsert_teams (db : TpvlDB) (teams_data : JVal) (now : Nat) :
    TpvlDB × DbOutcome :=
  match pyIter teams_data >>= (fun ts => ts.mapM parse_teamB) with
  | .error e => (db, .raised e)
  | .ok values =>
      if values.any teamRowViolation then
        (db, .ret true)
      else
        ({ db with
            teams := values.foldl (fun rows v => applyTeamVals rows v now) db.teams },
          .ret false)

/-! ### Fetch, extraction and run flow of source B -/

/-- The outcome of the network-plus-extraction stage for one source-B
page, abstracting `requests.get`, `raise_for_status`, the
`__NEXT_DATA__` script-tag regex of `extract_json_data` and `json.loads`:
`httpErr` for a request exception or a non-2xx status, `okPage none` for a
2xx page in which the regex finds no `__NEXT_DATA__` script tag
(`extract_json_data` returns `None`), `okPage (some j)` for a page whose
tag embeds the JSON value `j`. -/
inductive PageB where
  | httpErr
  | okPage (payload : Option JVal)

/-- The value `TPVLLocalUpdater.fetch_schedule` returns: the tuple
`(None, None)` from `return None, None`, the three-key dict, or the bare
`None` from the `except` handler. -/
inductive FetchResultB where
  | nonePair
  | pageDict (results futures squads : JVal)
  | noneRes
  deriving DecidableEq

/-- Python truthiness of a `fetch_schedule` result: `None` is falsy, but
the two-element tuple `(None, None)` and the three-key dict are truthy. -/
def FetchResultB.truthy : FetchResultB → Bool
  | .noneRes => false
  | _ => true

/-- Subscription `data[k]` on a `fetch_schedule` result: on the
`(None, None)` tuple a string index raises `TypeError`, on the dict it
selects the entry, on `None` it raises `TypeError`. -/
def FetchResultB.item (r : FetchResultB) (k : String) : Except PyErr JVal :=
  match r with
  | .nonePair => .error .typeErr
  | .noneRes => .error .typeErr
  | .pageDict rm fm sq =>
      if k = "results" then .ok rm
      else if k = "futures" then .ok fm
      else if k = "squads" then .ok sq
      else .error (.keyErr k)

/-- `TPVLLocalUpdater.fetch_schedule` over the page outcome: an HTTP
failure is caught (`return None`); a page without payload hits
`if not data: return None, None`; otherwise
`page_props = data['props']['pageProps']` (a `KeyError` or `TypeError`
here is caught by the same `except`, giving `None`) and the three batches
are read with `.get` defaults — a missing `resultMatchData`,
`incomingMatch`, `data` or `squads` path degrades to an empty collection
without failing the page. -/
def fetch_schedule (pg : PageB) : FetchResultB :=
  match pg with
  | .httpErr => .noneRes
  | .okPage none => .nonePair
  | .okPage (some j) =>
      match (do
        let props ← jGetItem j "props"
        let pp ← jGetItem props "pageProps"
        let rmd ← jGet pp "resultMatchData" (jO [])
        let rm ← jGet rmd "data" (jA [])
        let im ← jGet pp "incomingMatch" (jO [])
        let fm ← jGet im "data" (jA [])
        let sq ← jGet pp "squads" (jA [])
        Except.ok (rm, fm, sq) : Except PyErr (JVal × JVal × JVal)) with
      | .ok (rm, fm, sq) => .pageDict rm fm sq
      | .error _ => .noneRes

/-- Lines 291–310 of `TPVLLocalUpdater.run`: accumulate `all_matches` and
`all_squads` over the fixed page schedule — page (1,1) with squads,
result pages 2–4, then future page 2. `oracle` maps the
`(resultPage, futurePage)` query pair to the page outcome. An uncaught
exception (e.g. indexing the `(None, None)` tuple with a string) aborts
the phase. -/
def runFetchPhase (oracle : Nat → Nat → PageB) :
    Except PyErr (List JVal × JVal) := do
  let d1 := fetch_schedule (oracle 1 1)
  let (am0, squads) ←
    if d1.truthy then do
      let sq ← d1.item "squads"
      let rs ← d1.item "results"
      let rsl ← pyIter rs
      let fs ← d1.item "futures"
      let fsl ← pyIter fs
      pure (rsl ++ fsl, sq)
    else
      pure (([] : List JVal), jA [])
  let am1 ← [2, 3, 4].foldlM (fun (acc : List JVal) (page : Nat) => do
      let d := fetch_schedule (oracle page 1)
      if d.truthy then do
        let rs ← d.item "results"
        if pyTruthy rs then do
          let rsl ← pyIter rs
          pure (acc ++ rsl)
        else pure acc
      else pure acc) am0
  let d2 := fetch_schedule (oracle 1 2)
  let am2 ←
    if d2.truthy then do
      let fs ← d2.item "futures"
      if pyTruthy fs then do
        let fsl ← pyIter fs
        pure (am1 ++ fsl)
      else pure am1
    else pure am1
  pure (am2, squads)

/-- Line 313 of `TPVLLocalUpdater.run`:
`unique_matches = {m['id']: m for m in all_matches}.values()` — build the
dict in fetch order (last assignment per key wins, a `KeyError` on a
missing id propagates), then take its values. -/
def dedupMatches (ms : List JVal) : Except PyErr (List JVal) := do
  let pairs ← ms.mapM (fun m => do
    let k ← jGetItem m "id"
    pure (k, m))
  pure ((upsertAll ([] : List (JVal × JVal)) pairs).map Prod.snd)

/-- Lines 312–331 of `TPVLLocalUpdater.run`: dedup, upsert teams when
`all_squads` is truthy, upsert matches when `unique_matches` is nonempty,
verify (read-only), `close()`. The returned flag records whether
`close()` was reached: an exception raised out of a sink (or the dedup)
propagates to `__main__` and skips it. -/
def runPersistPhase (db : TpvlDB) (allMatches : List JVal) (allSquads : JVal)
    (now : Nat) : TpvlDB × DbOutcome × Bool :=
  match dedupMatches allMatches with
  | .error e => (db, .raised e, false)
  | .ok unique =>
      let r1 :=
        if pyTruthy allSquads then upsert_teams db allSquads now
        else (db, .ret false)
      match r1.2 with
      | .raised e => (r1.1, .raised e, false)
      | .ret _ =>
          let r2 :=
            if !unique.isEmpty then upsert_matches r1.1 unique now
            else (r1.1, .ret false)
          match r2.2 with
          | .raised e => (r2.1, .raised e, false)
          | .ret logged => (r2.1, .ret logged, true)

def rawB1 : JVal :=
  jO [("id", .jnum 7), ("code", .jstr "G1"),
      ("matchedAt", .jstr "2024-01-01T10:00:00Z"), ("venue", .jstr "V1"),
      ("homeSquadId", .jnum 10), ("awaySquadId", .jnum 20),
      ("squadMatchResults",
        jA [jO [("squadId", .jnum 10), ("wonRounds", .jnum 3)],
            jO [("squadId", .jnum 20), ("wonRounds", .jnum 1)]])]

example : parse_matchB rawB1 0 =
    .ok { id := .jnum 7, code := .jstr "G1", match_date := (2024, 1, 1),
          match_time := (18, 0, 0), weekday := "一", home_team_id := .jnum 10,
          away_team_id := .jnum 20, venue := .jstr "V1", status := "completed",
          home_score := some (.jnum 3), away_score := some (.jnum 1),
          updated_at := 0 } := by decide

example : parse_matchB (jO [("id", .jnum 1)]) 0 = .error (.keyErr "matchedAt") := by decide

example : fetch_schedule (.okPage none) = .nonePair := by decide
example : fetch_schedule .httpErr = .noneRes := by decide
example : fetch_schedule (.okPage (some (jO [("props", jO [("pageProps", jO [])])]))) =
    .pageDict (jA []) (jA []) (jA []) := by decide
example : fetch_schedule (.okPage (some (jO []))) = .noneRes := by decide
example : runFetchPhase (fun _ _ => .okPage none) = .error .typeErr := by decide

/-! ## Claims -/

/-- C1 counterexample: on a page whose home big-score text is `"21"` and
whose away big-score text is `"x"`, the away text fails integer parsing
yet `home_score` is populated with 21 (the `except: pass` fires after
`home_score` was already assigned), contradicting the claim that both
scores are null whenever either cell fails to parse. -/
theorem C1_counterexample :
    pyInt (pyStrip "x") = none ∧
    (parse_score_and_status
        { match_table := none, game_header := none,
          homeBig := some "21", awayBig := some "x", badge := none }).2.1 =
      some 21 ∧
    (parse_score_and_status
        { match_table := none, game_header := none,
          homeBig := some "21", awayBig := some "x", badge := none }).2.2.1 =
      none := by
  refine ⟨by decide, by decide, by decide⟩

/-- C1 (amended): both overall scores are populated iff both big-score
cells are present and both texts parse; if either cell is absent or the
home text fails to parse, both are null; but if the home text parses and
the away text fails, `home_score` alone is populated and only
`away_score` is null. -/
theorem C1_amended (p : PageA) :
    ((p.homeBig = none ∨ p.awayBig = none) →
        (parse_score_and_status p).2.1 = none ∧
          (parse_score_and_status p).2.2.1 = none) ∧
    (∀ ht at2, p.homeBig = some ht → p.awayBig = some at2 →
        (pyInt (pyStrip ht) = none →
            (parse_score_and_status p).2.1 = none ∧
              (parse_score_and_status p).2.2.1 = none) ∧
        (∀ n, pyInt (pyStrip ht) = some n →
            (parse_score_and_status p).2.1 = some n ∧
              (parse_score_and_status p).2.2.1 = pyInt (pyStrip at2))) := by
  obtain ⟨mt, gh, hb, ab, bd⟩ := p
  constructor
  · rintro (h | h)
    · cases h
      cases ab <;> exact ⟨rfl, rfl⟩
    · cases h
      cases hb <;> exact ⟨rfl, rfl⟩
  · rintro ht at2 rfl rfl
    constructor
    · intro hnone
      simp [parse_score_and_status, hnone]
    · intro n hn
      cases hx : pyInt (pyStrip at2) <;> simp [parse_score_and_status, hn, hx]

/-- C1 amended witness at a concrete page: home `"21"` parses to 21, away
`"x"` fails, so the returned pair is `(some 21, none)`. -/
theorem C1_amended_witness :
    (parse_score_and_status
        { match_table := none, game_header := none,
          homeBig := some "21", awayBig := some "x", badge := none }).2.1 =
      some 21 ∧
    (parse_score_and_status
        { match_table := none, game_header := none,
          homeBig := some "21", awayBig := some "x", badge := none }).2.2.1 =
      pyInt (pyStrip "x") := by
  have h := (C1_amended
    { match_table := none, game_header := none,
      homeBig := some "21", awayBig := some "x", badge := none }).2
    "21" "x" rfl rfl
  exact (h.2 21 (by decide))

/-- C2: a 200 page with no `__NEXT_DATA__` script tag makes
`fetch_schedule` return the tuple `(None, None)` (from `return None,
None`), which is truthy, so `run` goes on to evaluate `data['squads']` on
a tuple and raises an uncaught `TypeError`, aborting the whole fetch
phase — the page is not skipped gracefully. Missing nested paths, by
contrast, do degrade to empty collections as the claim says. -/
theorem C2_missing_payload_aborts :
    fetch_schedule (.okPage none) = .nonePair ∧
    FetchResultB.truthy .nonePair = true ∧
    runFetchPhase (fun _ _ => .okPage none) = .error .typeErr ∧
    fetch_schedule (.okPage (some (jO [("props", jO [("pageProps", jO [])])]))) =
      .pageDict (jA []) (jA []) (jA []) := by
  refine ⟨rfl, rfl, by decide, by decide⟩

/-- C10: a raw source-B match object that has an id (so deduplication
succeeds) but lacks `matchedAt` makes `parse_match` raise `KeyError`
inside `upsert_matches`' `values` comprehension, which runs before the
`try`: the exception propagates, no row of the batch is written, and the
run never reaches `close()`. A non-ISO timestamp likewise raises
(`ValueError`). -/
theorem C10_parse_crash :
    upsert_matches { teams := [], matchesTbl := [] } [jO [("id", .jnum 1)]] 0 =
      ({ teams := [], matchesTbl := [] }, .raised (.keyErr "matchedAt")) ∧
    runPersistPhase { teams := [], matchesTbl := [] } [jO [("id", .jnum 1)]] (jA []) 0 =
      ({ teams := [], matchesTbl := [] }, .raised (.keyErr "matchedAt"), false) ∧
    parse_matchB (jO [("matchedAt", .jstr "banana")]) 0 = .error .valueErr := by
  refine ⟨by decide, by decide, by decide⟩

/-- C9 counterexample: the two fixed loops enumerate 51 + 63 = 114
(category, id) pairs, not 126. -/
theorem C9_counterexample :
    runFetchPairs.length = 114 ∧ ¬ runFetchPairs.length = 126 := by
  constructor <;> decide

/-- C3 counterexample: a batch whose single row references home squad 10
while `tpvl_teams` is empty violates the foreign key; `upsert_matches`
rolls the batch back (store unchanged) but returns normally with the
error merely logged (`ret true`) — no exception reaches the caller, so
the error is swallowed, not surfaced. -/
theorem C3_counterexample :
    upsert_matches { teams := [], matchesTbl := [] } [rawB1] 5 =
      ({ teams := [], matchesTbl := [] }, .ret true) := by
  decide

theorem runBodyA_filter (oracle : Gender → Nat → Option PageA) (g : Gender) (id : Nat) :
    (runBodyA oracle g id).filter (fun e => !e.isInsertRec) =
      [.fetch g id, .sleepMs 500] := by
  unfold runBodyA
  cases oracle g id with
  | none => rfl
  | some soup =>
      cases h : parse_matchA id g soup <;>
        simp [h, EvA.isInsertRec, List.filter]

set_option maxRecDepth 8000 in
/-- C9 (amended): whatever the network returns, a full source-A run
performs, per (category, id) pair, exactly one fetch followed by one fixed
0.5-second sleep; the pairs iterated are the 51 female ids 228–278
followed by the 63 male ids 264–326 — 114 pairs in total, each exactly
once (not 126 as claimed). -/
theorem C9_amended (oracle : Gender → Nat → Option PageA) :
    (runTraceA oracle).filter (fun e => !e.isInsertRec) =
      runFetchPairs.flatMap (fun p => [.fetch p.1 p.2, .sleepMs 500]) ∧
    runFetchPairs.length = 114 ∧
    runFetchPairs.Nodup ∧
    runFetchPairs =
      (pyRangeIncl 228 278).map (fun i => (Gender.female, i)) ++
        (pyRangeIncl 264 326).map (fun i => (Gender.male, i)) := by
  refine ⟨?_, by decide, by decide, rfl⟩
  unfold runTraceA
  rw [List.filter_flatMap]
  apply List.flatMap_congr  -- might not exist; fallback below
  intro p _
  exact runBodyA_filter oracle p.1 p.2

theorem assoc_val_eq_of_nodup {K A : Type} [DecidableEq K] {l : List (K × A)}
    {k : K} {a b : A} (hnd : (l.map Prod.fst).Nodup)
    (ha : (k, a) ∈ l) (hb : (k, b) ∈ l) : a = b := by
  induction l with
  | nil => exact absurd ha (List.not_mem_nil _)
  | cons p t ih =>
      rw [List.map_cons, List.nodup_cons] at hnd
      rcases List.mem_cons.mp ha with rfl | hat
      · rcases List.mem_cons.mp hb with h2 | hbt
        · exact (congrArg Prod.snd h2).symm
        · exact absurd (List.mem_map_of_mem Prod.fst hbt) hnd.1
      · rcases List.mem_cons.mp hb with rfl | hbt
        · exact absurd (List.mem_map_of_mem Prod.fst hat) hnd.1
        · exact ih hnd.2 hat hbt


/-- C5 (amended): re-ingesting an existing (match id, category) key leaves
the row count and the key list unchanged, overwrites date, time, team
names, status, scores and set scores of the existing row with the incoming
values, preserves the row's identity (surrogate id) — and also preserves
the stored source URL (the `ON CONFLICT` update clause does not list
`url`, contrary to the claim); rows under other keys are untouched, and at
most one row per key is maintained. -/
theorem C5_amended (db : TvlDB) (d : RecordA) (now : Nat)
    (hpresent : tvlKey d ∈ db.rows.map Prod.fst)
    (hnodup : (db.rows.map Prod.fst).Nodup) :
    ∃ oldRow : TvlRow, (tvlKey d, oldRow) ∈ db.rows ∧
      (insert_match db d now).rows.length = db.rows.length ∧
      (insert_match db d now).rows.map Prod.fst = db.rows.map Prod.fst ∧
      (∀ q ∈ (insert_match db d now).rows, q.1 = tvlKey d →
          q.2.match_date = d.match_date ∧ q.2.match_time = d.match_time ∧
          q.2.home_name = d.home_name ∧ q.2.away_name = d.away_name ∧
          q.2.status = d.status ∧ q.2.home_score = d.home_score ∧
          q.2.away_score = d.away_score ∧ q.2.set_scores = d.set_scores ∧
          q.2.url = oldRow.url ∧ q.2.rowid = oldRow.rowid) ∧
      (∀ q ∈ (insert_match db d now).rows, q.1 ≠ tvlKey d → q ∈ db.rows) ∧
      ((insert_match db d now).rows.map Prod.fst).Nodup := by
  obtain ⟨⟨k1, old⟩, hq, hkey⟩ := List.mem_map.mp hpresent
  simp only at hkey
  subst hkey
  have hany : db.rows.any (fun p => decide (p.1 = tvlKey d)) = true :=
    List.any_eq_true.mpr ⟨(tvlKey d, old), hq, by simp⟩
  have hbranch : insert_match db d now =
      { db with rows := db.rows.map (fun p =>
          if p.1 = tvlKey d then
            (p.1, { rowid := p.2.rowid,
                    match_date := d.match_date, match_time := d.match_time,
                    home_name := d.home_name, away_name := d.away_name,
                    status := d.status, home_score := d.home_score,
                    away_score := d.away_score, set_scores := d.set_scores,
                    url := p.2.url, scraped_at := now })
          else p) } := by
    unfold insert_match
    rw [if_pos hany]
  have hkeys : ((insert_match db d now).rows.map Prod.fst) = db.rows.map Prod.fst := by
    rw [hbranch, List.map_map]
    apply List.map_congr_left
    intro p _
    by_cases h : p.1 = tvlKey d <;> simp [h]
  refine ⟨old, hq, ?_, hkeys, ?_, ?_, hkeys ▸ hnodup⟩
  · rw [hbranch]
    exact List.length_map _ _
  · intro q hqmem hqkey
    rw [hbranch] at hqmem
    obtain ⟨p, hp, hpe⟩ := List.mem_map.mp hqmem
    by_cases h : p.1 = tvlKey d
    · rw [if_pos h] at hpe
      have hval : p.2 = old := by
        refine assoc_val_eq_of_nodup hnodup ?_ hq
        rw [← h]
        exact hp
      subst hpe
      simp [hval]
    · rw [if_neg h] at hpe
      exact absurd (hpe ▸ hqkey) h
  · intro q hqmem hqkey
    rw [hbranch] at hqmem
    obtain ⟨p, hp, hpe⟩ := List.mem_map.mp hqmem
    by_cases h : p.1 = tvlKey d
    · rw [if_pos h] at hpe
      exact absurd (hpe ▸ rfl : q.1 = p.1) (fun he => hqkey (he.trans h))
    · rw [if_neg h] at hpe
      exact hpe ▸ hp

def rowC5 : TvlRow :=
  { rowid := 0, match_date := none, match_time := none, home_name := "H",
    away_name := "A", status := "scheduled", home_score := none,
    away_score := none, set_scores := none,
    url := "https://tvl.ctvba.org.tw/game/300", scraped_at := 11 }

def dbC5 : TvlDB := { nextId := 1, rows := [((300, Gender.male), rowC5)] }

def recC5 : RecordA :=
  { match_id := 300, gender := .male, match_date := some "2024-11-03",
    match_time := some "14:00", home_name := "H2", away_name := "A2",
    status := "finished", home_score := some 3, away_score := some 1,
    set_scores := some "25-20, 25-18, 25-15", url := "https://example.org/other" }

/-- C5 counterexample: re-ingesting key (300, male) with a different
source URL overwrites the team names (and the other listed fields) but
leaves the stored URL at its old value — the update clause omits `url`,
so not every listed mutable field is overwritten. -/
theorem C5_counterexample :
    recC5.url = "https://example.org/other" ∧
    (insert_match dbC5 recC5 99).rows.map (fun p => p.2.url) =
      ["https://tvl.ctvba.org.tw/game/300"] ∧
    (insert_match dbC5 recC5 99).rows.map (fun p => p.2.home_name) = ["H2"] := by
  refine ⟨rfl, by decide, by decide⟩

/-- C5 amended witness: the amended statement applied at the concrete
store `dbC5` and record `recC5`. -/
theorem C5_amended_witness :
    (insert_match dbC5 recC5 99).rows.length = dbC5.rows.length ∧
    (insert_match dbC5 recC5 99).rows.map Prod.fst = dbC5.rows.map Prod.fst ∧
    ((insert_match dbC5 recC5 99).rows.map Prod.fst).Nodup := by
  obtain ⟨oldRow, _, hlen, hkeys, _, _, hnd⟩ :=
    C5_amended dbC5 recC5 99 (by decide) (by decide)
  exact ⟨hlen, hkeys, hnd⟩

/-- A `tpvl_matches` row with the audit timestamps (`created_at`,
`updated_at`) erased. -/
structure MatchRowCore where
  code : JVal
  match_date : Nat × Nat × Nat
  match_time : Nat × Nat × Nat
  weekday : String
  home_team_id : JVal
  away_team_id : JVal
  venue : JVal
  status : String
  home_score : Option JVal
  away_score : Option JVal
  deriving DecidableEq

/-- Erase the audit timestamps of a stored row. -/
def MatchRow.core (r : MatchRow) : MatchRowCore :=
  { code := r.code, match_date := r.match_date, match_time := r.match_time,
    weekday := r.weekday, home_team_id := r.home_team_id,
    away_team_id := r.away_team_id, venue := r.venue, status := r.status,
    home_score := r.home_score, away_score := r.away_score }

/-- The non-audit columns an incoming parsed row writes. -/
def MatchVals.core (v : MatchVals) : MatchRowCore :=
  { code := v.code, match_date := v.match_date, match_time := v.match_time,
    weekday := v.weekday, home_team_id := v.home_team_id,
    away_team_id := v.away_team_id, venue := v.venue, status := v.status,
    home_score := v.home_score, away_score := v.away_score }

/-- The `tpvl_matches` table with audit timestamps erased. -/
def stripM (rows : List (Int × MatchRow)) : List (Int × MatchRowCore) :=
  rows.map (fun p => (p.1, p.2.core))

theorem stripM_keys (rows : List (Int × MatchRow)) :
    (stripM rows).map Prod.fst = rows.map Prod.fst := by
  rw [stripM, List.map_map]
  rfl

/-- Up to audit timestamps, one `ON CONFLICT` row of the matches INSERT is
the keyed overwrite `upsertA`. -/
theorem stripM_applyMatchVals (rows : List (Int × MatchRow)) (v : MatchVals) (now : Nat) :
    stripM (applyMatchVals rows v now) = upsertA (stripM rows) v.key v.core := by
  have hany : (stripM rows).any (fun p => decide (p.1 = v.key)) =
      rows.any (fun p => decide (p.1 = v.key)) := by
    induction rows with
    | nil => rfl
    | cons p t ih =>
        simp only [stripM, List.map_cons, List.any_cons] at ih ⊢
        rw [ih]
  unfold applyMatchVals upsertA
  rw [hany]
  by_cases h : rows.any (fun p => decide (p.1 = v.key)) = true
  · rw [if_pos h, if_pos h]
    show stripM _ = _
    rw [stripM, stripM, List.map_map, List.map_map]
    apply List.map_congr_left
    intro p _
    by_cases hk : p.1 = v.key <;>
      simp [hk, MatchRow.core, MatchVals.core, Function.comp]
  · rw [if_neg h, if_neg h]
    show stripM _ = _
    rw [stripM, stripM, List.map_append]
    simp [MatchRow.core, MatchVals.core]

/-- Up to audit timestamps, the whole batch fold is `upsertAll`. -/
theorem stripM_foldl (rows : List (Int × MatchRow)) (vs : List MatchVals) (now : Nat) :
    stripM (vs.foldl (fun r v => applyMatchVals r v now) rows) =
      upsertAll (stripM rows) (vs.map (fun v => (v.key, v.core))) := by
  induction vs generalizing rows with
  | nil => rfl
  | cons v t ih =>
      rw [List.foldl_cons, ih, List.map_cons, upsertAll_cons, stripM_applyMatchVals]

/-- C3 (amended): when every raw object of the batch parses, the TPVL sink
never lets an exception reach the caller: it returns normally with the
error at most logged; the teams table is untouched; the logged flag is set
exactly when some row violates a constraint, and then the whole batch is
rolled back (store identical to before); otherwise the batch commits as a
whole and every row's key is present in the resulting matches table. -/
theorem C3_amended (db : TpvlDB) (ms : List JVal) (now : Nat)
    (values : List MatchVals)
    (hparse : ms.mapM (fun m => parse_matchB m now) = .ok values) :
    ∃ db2 logged, upsert_matches db ms now = (db2, .ret logged) ∧
      db2.teams = db.teams ∧
      (logged = true ↔ values.any (matchRowViolation db.teams) = true) ∧
      (logged = true → db2 = db) ∧
      (logged = false → ∀ v ∈ values, v.key ∈ db2.matchesTbl.map Prod.fst) := by
  have hred : upsert_matches db ms now =
      (if values.any (matchRowViolation db.teams) = true then (db, DbOutcome.ret true)
       else ({ teams := db.teams,
               matchesTbl :=
                 values.foldl (fun rows v => applyMatchVals rows v now) db.matchesTbl },
             DbOutcome.ret false)) := by
    unfold upsert_matches
    rw [hparse]
  rw [hred]
  by_cases hv : values.any (matchRowViolation db.teams) = true
  · rw [if_pos hv]
    exact ⟨db, true, rfl, rfl, by simp [hv], fun _ => rfl, by simp⟩
  · rw [if_neg hv]
    refine ⟨_, false, rfl, rfl, by simp [hv], by simp, ?_⟩
    intro _ v hvmem
    have hmem : v.key ∈
        (stripM (values.foldl (fun rows v => applyMatchVals rows v now) db.matchesTbl)).map
          Prod.fst := by
      rw [stripM_foldl]
      refine mem_keys_upsertAll.mpr (Or.inr ?_)
      have : (v.key, v.core) ∈ values.map (fun v => (v.key, v.core)) :=
        List.mem_map_of_mem _ hvmem
      exact List.mem_map.mpr ⟨(v.key, v.core), this, rfl⟩
    rw [stripM_keys] at hmem
    exact hmem

def teamRowT : TeamRow :=
  { name := .jstr "T", name_en := .jnull, logo_url := .jnull,
    created_at := 0, updated_at := 0 }

def dbC3 : TpvlDB := { teams := [(10, teamRowT), (20, teamRowT)], matchesTbl := [] }

def valsB1 : MatchVals :=
  { id := .jnum 7, code := .jstr "G1", match_date := (2024, 1, 1),
    match_time := (18, 0, 0), weekday := "一", home_team_id := .jnum 10,
    away_team_id := .jnum 20, venue := .jstr "V1", status := "completed",
    home_score := some (.jnum 3), away_score := some (.jnum 1), updated_at := 5 }

/-- C3 amended witness: on a batch whose team references exist, the sink
returns normally with no error logged and the teams table unchanged. -/
theorem C3_amended_witness :
    (upsert_matches dbC3 [rawB1] 5).2 = .ret false ∧
    (upsert_matches dbC3 [rawB1] 5).1.teams = dbC3.teams := by
  obtain ⟨db2, logged, heq, hteams, hiff, _, _⟩ :=
    C3_amended dbC3 [rawB1] 5 [valsB1] (by decide)
  have hlog : logged = false := by
    cases logged with
    | false => rfl
    | true => exact absurd (hiff.mp rfl) (by decide)
  rw [heq, hlog] at *
  exact ⟨rfl, hteams⟩

/-- Spec-side inclusion rule for set index `i` (from the spec's words): a
set is included iff both cells exist and their stripped texts are
non-empty and all-digit, contributing the entry `"{home}-{away}"`. -/
def specSetEntry (hr ar : RowA) (i : Nat) : Option String :=
  match hr.cell i, ar.cell i with
  | some hc, some ac =>
      if pyStrip hc ≠ "" ∧ pyStrip ac ≠ "" ∧
          (pyStrip hc).data.all Char.isDigit ∧ (pyStrip ac).data.all Char.isDigit then
        some (pyStrip hc ++ "-" ++ pyStrip ac)
      else none
  | _, _ => none

/-- Spec-side output sequence: the qualifying entries for indices 1..5 in
ascending order. -/
def specSetList (hr ar : RowA) : List String :=
  (List.range' 1 5).filterMap (specSetEntry hr ar)

theorem str_eq_empty_iff (s : String) : s = "" ↔ s.data = [] :=
  ⟨fun h => h ▸ rfl, fun h => by cases s; simp_all⟩

theorem setPairEntry_eq_spec (hr ar : RowA) (i : Nat) :
    setPairEntry hr ar i = specSetEntry hr ar i := by
  unfold setPairEntry specSetEntry
  cases hhc : hr.cell i with
  | none => rfl
  | some hc =>
      cases hac : ar.cell i with
      | none => rfl
      | some ac =>
          by_cases h1 : pyStrip hc = "" <;> by_cases h2 : pyStrip ac = "" <;>
            by_cases h3 : (pyStrip hc).data.all Char.isDigit <;>
            by_cases h4 : (pyStrip ac).data.all Char.isDigit <;>
            simp_all [pyIsDigit, List.isEmpty_iff, str_eq_empty_iff]

theorem foldl_collectStep (hr ar : RowA) (l : List Nat) (acc : List String) :
    l.foldl (collectStep hr ar) acc = acc ++ l.filterMap (setPairEntry hr ar) := by
  induction l generalizing acc with
  | nil => simp
  | cons x t ih =>
      rw [List.foldl_cons]
      cases hx : setPairEntry hr ar x with
      | none =>
          rw [show collectStep hr ar acc x = acc by rw [collectStep, hx], ih]
          simp [List.filterMap_cons, hx]
      | some e =>
          rw [show collectStep hr ar acc x = acc ++ [e] by rw [collectStep, hx], ih]
          simp [List.filterMap_cons, hx]

theorem collectSets_eq_spec (hr ar : RowA) : collectSets hr ar = specSetList hr ar := by
  rw [collectSets, foldl_collectStep, List.nil_append, specSetList]
  exact congrArg (fun f => List.filterMap f (List.range' 1 5))
    (funext (setPairEntry_eq_spec hr ar))

/-- C7: on a parsable results table (the `.match_table` is present and its
`tbody` has at least two rows), the set-score output of
`parse_score_and_status` is exactly the comma-joined `"{home}-{away}"`
entries of the indices 1..5 whose two cells exist with stripped non-empty
all-digit texts, in ascending index order — and null when no set
qualifies. -/
theorem C7_set_scores (p : PageA) (t : TableA) (hr ar : RowA) (rest : List RowA)
    (ht : p.match_table = some t) (hb : t.tbody = some (hr :: ar :: rest)) :
    (parse_score_and_status p).2.2.2 =
      (if specSetList hr ar = [] then none
       else some (String.intercalate ", " (specSetList hr ar))) := by
  obtain ⟨mt, gh, hbg, abg, bd⟩ := p
  simp only at ht
  subst ht
  unfold parse_score_and_status
  simp only [hb, Option.getD_some, collectSets_eq_spec]
  by_cases hempty : specSetList hr ar = [] <;>
    simp [hempty, List.isEmpty_iff]

/-- C7 witness: the end-to-end example page — set cells 25/23, 25/20,
21/25, 25/18 on indices 1–4, nothing on index 5 — yields
`"25-23, 25-20, 21-25, 25-18"`. -/
theorem C7_set_scores_witness :
    (parse_score_and_status pageEx).2.2.2 = some "25-23, 25-20, 21-25, 25-18" := by
  have h := C7_set_scores pageEx _ _ _ _ rfl rfl
  exact h.trans (by decide)

/-- A raw source-B match object with the required keys, a timestamp
string, typed ids and a round-result batch — the JSON shape
`parse_match` reads. -/
def mkRawB (idv : Int) (code : String) (matchedAt : String) (hid aid : Int)
    (venue : String) (results : List (Int × Int)) : JVal :=
  jO [("id", .jnum idv), ("code", .jstr code), ("matchedAt", .jstr matchedAt),
      ("venue", .jstr venue), ("homeSquadId", .jnum hid), ("awaySquadId", .jnum aid),
      ("squadMatchResults",
        jA (results.map (fun r => jO [("squadId", .jnum r.1), ("wonRounds", .jnum r.2)])))]

theorem pyWeekday_lt (y m d : Nat) : pyWeekday y m d < 7 :=
  Nat.mod_lt _ (by decide)

theorem pyIndexList_weekdayTable (i : Nat) (h : i < 7) :
    pyIndexList weekdayTable i = .ok (weekdayTable.getD i "") := by
  interval_cases i <;> rfl

/-- C8: for every raw match whose ISO-8601 timestamp is valid (after the
`Z` → `+00:00` replacement), the normalizer emits the wall-clock time plus
a flat 8 hours as local date and time, and the weekday label obtained by
indexing the fixed 7-name table with the local date's Python weekday
number (Monday = 0). Stated here for an upcoming match (empty
round-result batch); the timestamp handling is the same on both status
paths. -/
theorem C8_timezone (idv : Int) (code ts venue : String) (hid aid : Int)
    (now : Nat) (dt : PyDateTime)
    (hiso : pyFromIso (zToUtcOffset ts) = some dt) :
    parse_matchB (mkRawB idv code ts hid aid venue []) now =
      .ok { id := .jnum idv, code := .jstr code,
            match_date := ((addHours8 dt).year, (addHours8 dt).month, (addHours8 dt).day),
            match_time := ((addHours8 dt).hour, (addHours8 dt).minute, (addHours8 dt).second),
            weekday := weekdayTable.getD
              (pyWeekday (addHours8 dt).year (addHours8 dt).month (addHours8 dt).day) "",
            home_team_id := .jnum hid, away_team_id := .jnum aid,
            venue := .jstr venue, status := "upcoming",
            home_score := none, away_score := none, updated_at := now } := by
  have hbind : ∀ {X Y : Type} (x : X) (f : X → Except PyErr Y),
      (Except.ok x >>= f) = f x := fun _ _ => rfl
  have hM : jGetItem (mkRawB idv code ts hid aid venue []) "matchedAt" =
      .ok (.jstr ts) := rfl
  have hSMR : jGet (mkRawB idv code ts hid aid venue []) "squadMatchResults" .jnull =
      .ok (jA []) := rfl
  have hId : jGetItem (mkRawB idv code ts hid aid venue []) "id" = .ok (.jnum idv) := rfl
  have hCode : jGetItem (mkRawB idv code ts hid aid venue []) "code" =
      .ok (.jstr code) := rfl
  have hHid : jGetItem (mkRawB idv code ts hid aid venue []) "homeSquadId" =
      .ok (.jnum hid) := rfl
  have hAid : jGetItem (mkRawB idv code ts hid aid venue []) "awaySquadId" =
      .ok (.jnum aid) := rfl
  have hVen : jGetItem (mkRawB idv code ts hid aid venue []) "venue" =
      .ok (.jstr venue) := rfl
  have hT : pyTruthy (jA []) = false := rfl
  have hwk := pyIndexList_weekdayTable
    (pyWeekday (addHours8 dt).year (addHours8 dt).month (addHours8 dt).day)
    (pyWeekday_lt ..)
  unfold parse_matchB
  simp only [hM, hbind, hiso, hSMR, hT, Bool.false_eq_true, if_false, hId, hCode,
    hwk, hHid, hAid, hVen]
  rfl

/-- C8 witness: the UTC timestamp `2024-01-01T10:00:00Z` normalizes to
local date 2024-01-01, local time 18:00:00 and the weekday label at
Monday's position of the table (`"一"`, index 0). -/
theorem C8_timezone_witness :
    parse_matchB (mkRawB 1 "G1" "2024-01-01T10:00:00Z" 10 20 "V" []) 0 =
      .ok { id := .jnum 1, code := .jstr "G1", match_date := (2024, 1, 1),
            match_time := (18, 0, 0), weekday := "一", home_team_id := .jnum 10,
            away_team_id := .jnum 20, venue := .jstr "V", status := "upcoming",
            home_score := none, away_score := none, updated_at := 0 } ∧
    weekdayTable.getD 0 "" = "一" ∧
    pyWeekday 2024 1 1 = 0 := by
  have h := C8_timezone 1 "G1" "2024-01-01T10:00:00Z" "V" 10 20 0
    { year := 2024, month := 1, day := 1, hour := 10, minute := 0, second := 0 }
    (by decide)
  exact ⟨h.trans (by decide), by decide, by decide⟩

theorem mapM_id_pairs (ms : List JVal) (idf : JVal → JVal)
    (hid : ∀ m ∈ ms, jGetItem m "id" = .ok (idf m)) :
    ms.mapM (fun m => do
        let k ← jGetItem m "id"
        pure (k, m)) =
      .ok (ms.map (fun m => (idf m, m))) := by
  induction ms with
  | nil => rfl
  | cons m t ih =>
      rw [List.mapM_cons]
      rw [hid m (List.mem_cons_self m t)]
      rw [ih (fun x hx => hid x (List.mem_cons_of_mem m hx))]
      rfl

/-- C6: deduplication is last-wins. Given the ids of the accumulated raw
objects (`idf`, total on the list by hypothesis), the merged collection is
the value list of a dict with pairwise-distinct keys (exactly one entry
per external id); every accumulated id is represented; and each kept
entry is *equal* to the object encountered last in fetch order among
those sharing its id — whole-object replacement, no field merging. -/
theorem C6_dedup_last_wins (ms : List JVal) (idf : JVal → JVal)
    (hid : ∀ m ∈ ms, jGetItem m "id" = .ok (idf m)) :
    dedupMatches ms =
      .ok ((upsertAll [] (ms.map (fun m => (idf m, m)))).map Prod.snd) ∧
    ((upsertAll ([] : List (JVal × JVal)) (ms.map (fun m => (idf m, m)))).map
        Prod.fst).Nodup ∧
    (∀ m ∈ ms, idf m ∈
        (upsertAll [] (ms.map (fun m => (idf m, m)))).map Prod.fst) ∧
    (∀ p ∈ upsertAll ([] : List (JVal × JVal)) (ms.map (fun m => (idf m, m))),
        ms.reverse.find? (fun m => decide (idf m = p.1)) = some p.2 ∧
        p.2 ∈ ms ∧ idf p.2 = p.1) := by
  refine ⟨?_, ?_, ?_, ?_⟩
  · unfold dedupMatches
    rw [mapM_id_pairs ms idf hid]
    rfl
  · exact keys_nodup_upsertAll _ List.nodup_nil
  · intro m hm
    refine mem_keys_upsertAll.mpr (Or.inr ?_)
    exact List.mem_map.mpr ⟨(idf m, m), List.mem_map_of_mem _ hm, rfl⟩
  · rintro ⟨k, v⟩ hp
    have hmatch : ∃ q ∈ ms.map (fun m => (idf m, m)), q.1 = k := by
      by_contra hnone
      push_neg at hnone
      have : ((k, v) : JVal × JVal) ∈ ([] : List (JVal × JVal)) :=
        (mem_upsertAll_of_no_match hnone).mp hp
      exact absurd this (List.not_mem_nil _)
    have hchain := val_eq_chain_of_mem hp hmatch
    rw [chainC_eq_last] at hchain
    have hrev : (ms.map (fun m => (idf m, m))).reverse =
        ms.reverse.map (fun m => (idf m, m)) := by
      rw [List.map_reverse]
    rw [hrev, List.find?_map] at hchain
    cases hfind : ms.reverse.find?
        ((fun (q : JVal × JVal) => decide (q.1 = k)) ∘ fun m => (idf m, m)) with
    | none =>
        obtain ⟨q, hq, hqk⟩ := hmatch
        obtain ⟨m0, hm0, hm0e⟩ := List.mem_map.mp hq
        rw [List.find?_eq_none] at hfind
        have hkey : idf m0 = k := by
          have h1 : ((idf m0, m0) : JVal × JVal).1 = k := by rw [hm0e]; exact hqk
          simpa using h1
        have hp : ((fun (q : JVal × JVal) => decide (q.1 = k)) ∘
            (fun m => (idf m, m))) m0 = true := by
          rw [Function.comp_apply]
          simp [hkey]
        exact absurd hp (hfind m0 (List.mem_reverse.mpr hm0))
    | some m0 =>
        rw [hfind] at hchain
        simp only [Option.map_some', Option.getD_some] at hchain
        have hpred := List.find?_some hfind
        rw [Function.comp_apply, decide_eq_true_eq] at hpred
        have hm0mem : m0 ∈ ms := List.mem_reverse.mp (List.mem_of_find?_eq_some hfind)
        subst hchain
        refine ⟨?_, hm0mem, hpred⟩
        have : (fun m => decide (idf m = k)) =
            ((fun (q : JVal × JVal) => decide (q.1 = k)) ∘ fun m => (idf m, m)) := rfl
        rw [this, hfind]

/-- C6 witness: two raw objects sharing id 1, fetched in sequence — the
merged collection is exactly the later object. -/
theorem C6_dedup_last_wins_witness :
    dedupMatches [jO [("id", .jnum 1), ("v", .jstr "old")],
      jO [("id", .jnum 1), ("v", .jstr "new")]] =
      .ok [jO [("id", .jnum 1), ("v", .jstr "new")]] := by
  have h := C6_dedup_last_wins
    [jO [("id", .jnum 1), ("v", .jstr "old")], jO [("id", .jnum 1), ("v", .jstr "new")]]
    (fun _ => .jnum 1) (by decide)
  exact h.1.trans (by decide)

/-- Replacing the `datetime.now()` argument only changes the tuple's
`updated_at` slot: parsing is otherwise deterministic in the raw object. -/
theorem parse_matchB_shift (m : JVal) (t1 t2 : Nat) :
    parse_matchB m t2 =
      (parse_matchB m t1).map (fun v => { v with updated_at := t2 }) := by
  have hbindmap : ∀ {X Y : Type} (e : Except PyErr X) (f g : X → Except PyErr Y)
      (sh : Y → Y), (∀ x, g x = (f x).map sh) → (e >>= g) = (e >>= f).map sh := by
    intro X Y e f g sh h
    cases e with
    | error e => rfl
    | ok x => exact h x
  unfold parse_matchB
  refine hbindmap _ _ _ _ fun matchedAt => ?_
  refine hbindmap _ _ _ _ fun ts => ?_
  refine hbindmap _ _ _ _ fun dt => ?_
  refine hbindmap _ _ _ _ fun smr => ?_
  by_cases hc : pyTruthy smr = true
  · simp only [hc, if_true]
    refine hbindmap _ _ _ _ fun rs => ?_
    refine hbindmap _ _ _ _ fun results => ?_
    refine hbindmap _ _ _ _ fun scores => ?_
    refine hbindmap _ _ _ _ fun st => ?_
    refine hbindmap _ _ _ _ fun idv => ?_
    refine hbindmap _ _ _ _ fun codev => ?_
    refine hbindmap _ _ _ _ fun wk => ?_
    refine hbindmap _ _ _ _ fun hidv => ?_
    refine hbindmap _ _ _ _ fun aidv => ?_
    refine hbindmap _ _ _ _ fun venuev => ?_
    rfl
  · simp only [hc, if_false]
    refine hbindmap _ _ _ _ fun st => ?_
    refine hbindmap _ _ _ _ fun idv => ?_
    refine hbindmap _ _ _ _ fun codev => ?_
    refine hbindmap _ _ _ _ fun wk => ?_
    refine hbindmap _ _ _ _ fun hidv => ?_
    refine hbindmap _ _ _ _ fun aidv => ?_
    refine hbindmap _ _ _ _ fun venuev => ?_
    rfl

theorem any_key_iff {K A : Type} [DecidableEq K] (l : List (K × A)) (k : K) :
    l.any (fun p => decide (p.1 = k)) = true ↔ k ∈ l.map Prod.fst := by
  rw [List.any_eq_true]
  constructor
  · rintro ⟨p, hp, hpk⟩
    rw [decide_eq_true_eq] at hpk
    exact hpk ▸ List.mem_map_of_mem _ hp
  · intro hk
    obtain ⟨p, hp, hpk⟩ := List.mem_map.mp hk
    exact ⟨p, hp, by simp [hpk]⟩

theorem insert_match_pos (db : TvlDB) (d : RecordA) (now : Nat)
    (h : db.rows.any (fun p => decide (p.1 = tvlKey d)) = true) :
    insert_match db d now =
      { db with rows := db.rows.map (fun p =>
        if p.1 = tvlKey d then
          (p.1, { rowid := p.2.rowid,
                  match_date := d.match_date, match_time := d.match_time,
                  home_name := d.home_name, away_name := d.away_name,
                  status := d.status, home_score := d.home_score,
                  away_score := d.away_score, set_scores := d.set_scores,
                  url := p.2.url, scraped_at := now })
        else p) } := by
  unfold insert_match
  rw [if_pos h]

theorem insert_match_neg (db : TvlDB) (d : RecordA) (now : Nat)
    (h : ¬ db.rows.any (fun p => decide (p.1 = tvlKey d)) = true) :
    insert_match db d now =
      { nextId := db.nextId + 1,
        rows := db.rows ++ [(tvlKey d,
          { rowid := db.nextId,
            match_date := d.match_date, match_time := d.match_time,
            home_name := d.home_name, away_name := d.away_name,
            status := d.status, home_score := d.home_score,
            away_score := d.away_score, set_scores := d.set_scores,
            url := d.url, scraped_at := now })] } := by
  unfold insert_match
  rw [if_neg h]

theorem insert_match_idem_core (db : TvlDB) (d : RecordA) (t1 t2 : Nat) :
    (insert_match (insert_match db d t1) d t2).coreRows =
      (insert_match db d t1).coreRows ∧
    (insert_match (insert_match db d t1) d t2).rows.length =
      (insert_match db d t1).rows.length := by
  by_cases h1 : db.rows.any (fun p => decide (p.1 = tvlKey d)) = true
  · have e1 := insert_match_pos db d t1 h1
    have hkeys1 : (insert_match db d t1).rows.map Prod.fst = db.rows.map Prod.fst := by
      rw [e1, List.map_map]
      apply List.map_congr_left
      intro p _
      by_cases h : p.1 = tvlKey d <;> simp [h]
    have h2 : (insert_match db d t1).rows.any
        (fun p => decide (p.1 = tvlKey d)) = true := by
      rw [any_key_iff, hkeys1, ← any_key_iff]
      exact h1
    have e2 := insert_match_pos (insert_match db d t1) d t2 h2
    constructor
    · rw [e2, e1]
      show List.map _ _ = List.map _ _
      rw [List.map_map, List.map_map, List.map_map]
      apply List.map_congr_left
      intro p _
      by_cases h : p.1 = tvlKey d <;>
        simp [h, TvlRow.core, Function.comp]
    · rw [e2]
      exact List.length_map _ _
  · have e1 := insert_match_neg db d t1 h1
    have h2 : (insert_match db d t1).rows.any
        (fun p => decide (p.1 = tvlKey d)) = true := by
      rw [e1]
      simp [List.any_append]
    have e2 := insert_match_pos (insert_match db d t1) d t2 h2
    have hnomatch : ∀ p ∈ db.rows, ¬ p.1 = tvlKey d := by
      intro p hp hk
      exact h1 (List.any_eq_true.mpr ⟨p, hp, by simp [hk]⟩)
    constructor
    · rw [e2, e1]
      show List.map _ _ = List.map _ _
      rw [List.map_map]
      simp only [List.map_append, List.map_cons, List.map_nil]
      congr 1
      · apply List.map_congr_left
        intro p hp
        simp [Function.comp, hnomatch p hp, TvlRow.core]
      · simp [Function.comp, TvlRow.core]
    · rw [e2]
      exact List.length_map _ _

theorem mapM_parse_shift (ms : List JVal) (t1 t2 : Nat) :
    ms.mapM (fun m => parse_matchB m t2) =
      (ms.mapM (fun m => parse_matchB m t1)).map
        (List.map (fun v => { v with updated_at := t2 })) := by
  induction ms with
  | nil => rfl
  | cons m t ih =>
      rw [List.mapM_cons, List.mapM_cons, parse_matchB_shift m t1 t2, ih]
      cases parse_matchB m t1 with
      | error e => rfl
      | ok v =>
          cases t.mapM (fun m => parse_matchB m t1) with
          | error e => rfl
          | ok vs => rfl

theorem shift_violation (teams : List (Int × TeamRow)) (v : MatchVals) (t : Nat) :
    matchRowViolation teams { v with updated_at := t } = matchRowViolation teams v := rfl

theorem any_violation_shift (teams : List (Int × TeamRow)) (vs : List MatchVals)
    (t : Nat) :
    (vs.map (fun v => { v with updated_at := t })).any (matchRowViolation teams) =
      vs.any (matchRowViolation teams) := by
  induction vs with
  | nil => rfl
  | cons v tl ih =>
      simp only [List.map_cons, List.any_cons, ih]
      rfl

theorem pairs_shift (vs : List MatchVals) (t : Nat) :
    (vs.map (fun v => { v with updated_at := t })).map (fun v => (v.key, v.core)) =
      vs.map (fun v => (v.key, v.core)) := by
  rw [List.map_map]
  rfl

theorem upsert_matches_ok (db : TpvlDB) (ms : List JVal) (now : Nat)
    (values : List MatchVals)
    (hparse : ms.mapM (fun m => parse_matchB m now) = .ok values) :
    upsert_matches db ms now =
      (if values.any (matchRowViolation db.teams) = true then (db, DbOutcome.ret true)
       else ({ teams := db.teams,
               matchesTbl :=
                 values.foldl (fun rows v => applyMatchVals rows v now) db.matchesTbl },
             DbOutcome.ret false)) := by
  unfold upsert_matches
  rw [hparse]

theorem upsert_matches_err (db : TpvlDB) (ms : List JVal) (now : Nat) (e : PyErr)
    (hparse : ms.mapM (fun m => parse_matchB m now) = .error e) :
    upsert_matches db ms now = (db, .raised e) := by
  unfold upsert_matches
  rw [hparse]

theorem upsert_matches_idem (db : TpvlDB) (ms : List JVal) (t1 t2 : Nat) :
    stripM (upsert_matches (upsert_matches db ms t1).1 ms t2).1.matchesTbl =
      stripM (upsert_matches db ms t1).1.matchesTbl ∧
    (upsert_matches (upsert_matches db ms t1).1 ms t2).1.matchesTbl.length =
      (upsert_matches db ms t1).1.matchesTbl.length ∧
    (upsert_matches (upsert_matches db ms t1).1 ms t2).1.teams =
      (upsert_matches db ms t1).1.teams := by
  cases hp1 : ms.mapM (fun m => parse_matchB m t1) with
  | error e =>
      have hp2 : ms.mapM (fun m => parse_matchB m t2) = .error e := by
        rw [mapM_parse_shift ms t1 t2, hp1]
        rfl
      rw [upsert_matches_err db ms t1 e hp1]
      rw [upsert_matches_err db ms t2 e hp2]
      exact ⟨rfl, rfl, rfl⟩
  | ok vs =>
      have hp2 : ms.mapM (fun m => parse_matchB m t2) =
          .ok (vs.map (fun v => { v with updated_at := t2 })) := by
        rw [mapM_parse_shift ms t1 t2, hp1]
        rfl
      rw [upsert_matches_ok db ms t1 vs hp1]
      by_cases hv : vs.any (matchRowViolation db.teams) = true
      · rw [if_pos hv]
        rw [upsert_matches_ok db ms t2 _ hp2]
        rw [if_pos (by rw [any_violation_shift]; exact hv)]
        exact ⟨rfl, rfl, rfl⟩
      · rw [if_neg hv]
        obtain ⟨db1, hdb1⟩ :
            ∃ db1, (⟨db.teams,
              vs.foldl (fun rows v => applyMatchVals rows v t1) db.matchesTbl⟩ :
                TpvlDB) = db1 :=
          ⟨_, rfl⟩
        rw [hdb1]
        have hteams : db1.teams = db.teams := by rw [← hdb1]
        have hmt : db1.matchesTbl =
            vs.foldl (fun rows v => applyMatchVals rows v t1) db.matchesTbl := by
          rw [← hdb1]
        show stripM (upsert_matches db1 ms t2).1.matchesTbl = stripM db1.matchesTbl ∧
          (upsert_matches db1 ms t2).1.matchesTbl.length = db1.matchesTbl.length ∧
          (upsert_matches db1 ms t2).1.teams = db1.teams
        rw [upsert_matches_ok db1 ms t2 _ hp2]
        have hv2 : ¬ ((vs.map (fun v => { v with updated_at := t2 })).any
            (matchRowViolation db1.teams)) = true := by
          rw [hteams, any_violation_shift]
          exact hv
        rw [if_neg hv2]
        refine ⟨?_, ?_, rfl⟩
        · show stripM ((vs.map (fun v => { v with updated_at := t2 })).foldl
              (fun rows v => applyMatchVals rows v t2) db1.matchesTbl) =
            stripM db1.matchesTbl
          rw [hmt, stripM_foldl, pairs_shift, stripM_foldl]
          exact upsertAll_idem _ _
        · have hlen : ∀ (l : List (Int × MatchRow)), l.length = (stripM l).length := by
            intro l
            rw [stripM]
            exact (List.length_map _ _).symm
          show ((vs.map (fun v => { v with updated_at := t2 })).foldl
              (fun rows v => applyMatchVals rows v t2) db1.matchesTbl).length =
            db1.matchesTbl.length
          rw [hlen, hlen db1.matchesTbl]
          rw [hmt, stripM_foldl, pairs_shift, stripM_foldl]
          rw [upsertAll_idem _ _]

/-- C4: both sinks are idempotent. Re-running the source-A per-row upsert
with the identical record leaves the row count and every non-timestamp
column (surrogate id included) unchanged — only `scraped_at` moves; and
re-running the source-B batch upsert with the identical raw batch leaves
the row count and every non-audit column unchanged (only
`created_at`/`updated_at` may differ) and the teams table untouched, in
every case: parse failure, rolled-back violation, or a committed batch. -/
theorem C4_idempotent (dbA : TvlDB) (d : RecordA) (tA1 tA2 : Nat)
    (dbB : TpvlDB) (ms : List JVal) (tB1 tB2 : Nat) :
    ((insert_match (insert_match dbA d tA1) d tA2).coreRows =
        (insert_match dbA d tA1).coreRows ∧
      (insert_match (insert_match dbA d tA1) d tA2).rows.length =
        (insert_match dbA d tA1).rows.length) ∧
    (stripM (upsert_matches (upsert_matches dbB ms tB1).1 ms tB2).1.matchesTbl =
        stripM (upsert_matches dbB ms tB1).1.matchesTbl ∧
      (upsert_matches (upsert_matches dbB ms tB1).1 ms tB2).1.matchesTbl.length =
        (upsert_matches dbB ms tB1).1.matchesTbl.length ∧
      (upsert_matches (upsert_matches dbB ms tB1).1 ms tB2).1.teams =
        (upsert_matches dbB ms tB1).1.teams) :=
  ⟨insert_match_idem_core dbA d tA1 tA2, upsert_matches_idem dbB ms tB1 tB2⟩
